import Mathlib

/-!
# Verification of the picofun generation pipeline

A shallow embedding, in Lean 4, of the core logic of the picofun code
generator: security-scheme selection (`picofun/security.py`), endpoint
filtering (`picofun/endpoint_filter.py`), server-URL resolution and
lambda-name derivation (`picofun/lambda_generator.py`), and configuration
merging / validation (`picofun/config.py`).

Conventions of the embedding:
- Python dictionaries become association lists (`List (String × _)`),
  preserving insertion order, since Python dicts are insertion ordered and
  `min` / iteration depend on that order.
- Python truthiness is made explicit (`Option` values, emptiness checks,
  `pyTruthy` for the dynamically typed `PyValue`).
- Fallible code returns `Except`; the raised exception class (with its
  payload) becomes the error value.
- File-system and YAML/TOML parsing boundaries are passed in as inputs
  (a `Bool` for an existence check, an `Option` for a parse result), as the
  source treats them as one-shot external reads.
-/

deriving instance DecidableEq for Except

namespace PicoFun

/-! ## Security schemes (`picofun/security.py`) -/

/-- `SecurityScheme` dataclass (security.py lines 12-32). -/
structure SecurityScheme where
  name : String
  type : String
  param_name : Option String := none
  location : Option String := none
  scheme : Option String := none
  bearer_format : Option String := none
deriving DecidableEq, Repr

/-- `_is_supported_scheme` (security.py lines 95-101). -/
def isSupportedScheme (s : SecurityScheme) : Bool :=
  if s.type == "apiKey" then true
  else if s.type == "http" && (s.scheme == some "basic" || s.scheme == some "bearer") then true
  else s.type == "mutualTLS"

/-- `_is_unsupported_scheme` (security.py lines 104-106). -/
def isUnsupportedScheme (s : SecurityScheme) : Bool :=
  s.type == "oauth2" || s.type == "openIdConnect"

/-- `_get_scheme_priority` (security.py lines 109-128). -/
def getSchemePriority (s : SecurityScheme) : Nat :=
  if s.type == "http" && s.scheme == some "bearer" then 1
  else if s.type == "http" && s.scheme == some "basic" then 2
  else if s.type == "apiKey" && s.location == some "header" then 3
  else if s.type == "apiKey" && s.location == some "query" then 4
  else if s.type == "apiKey" && s.location == some "cookie" then 5
  else if s.type == "mutualTLS" then 6
  else 999

/-- Python's `min(xs, key=f)` on a nonempty list: the first element attaining
the minimal key, here with `f = getSchemePriority`. -/
def minByPriority (s : SecurityScheme) (rest : List SecurityScheme) : SecurityScheme :=
  rest.foldl (fun acc x => if getSchemePriority x < getSchemePriority acc then x else acc) s

/-- The `referenced_schemes` local of `select_security_scheme`
(security.py lines 181-183): the schemes dict filtered to names referenced
in global security, in dict insertion order. -/
def referencedSchemes (schemes : List (String × SecurityScheme))
    (gs : List String) : List (String × SecurityScheme) :=
  schemes.filter (fun p => gs.contains p.1)

/-- The `supported_schemes` local (security.py lines 189-191). -/
def supportedSchemes (schemes : List (String × SecurityScheme))
    (gs : List String) : List SecurityScheme :=
  ((referencedSchemes schemes gs).map Prod.snd).filter isSupportedScheme

/-- The `unsupported_scheme_names` local (security.py lines 193-197). -/
def unsupportedSchemeNames (schemes : List (String × SecurityScheme))
    (gs : List String) : List String :=
  ((referencedSchemes schemes gs).filter (fun p => isUnsupportedScheme p.2)).map Prod.fst

/-- `select_security_scheme` (security.py lines 150-208).  The schemes dict
is an insertion-ordered association list; the error value is the list of
unsupported scheme names carried by `UnsupportedSecuritySchemeError`. -/
def selectSecurityScheme (schemes : List (String × SecurityScheme))
    (gs : List String) : Except (List String) (Option SecurityScheme) :=
  if schemes.isEmpty then .ok none
  else if (referencedSchemes schemes gs).isEmpty then .ok none
  else if !(unsupportedSchemeNames schemes gs).isEmpty && (supportedSchemes schemes gs).isEmpty
    then .error (unsupportedSchemeNames schemes gs)
  else
    match supportedSchemes schemes gs with
    | [] => .ok none
    | s :: rest => .ok (some (minByPriority s rest))

/-! ## Server URL resolution (`picofun/lambda_generator.py` lines 61-140) -/

/-- `ServerConfig` pydantic model (config.py lines 21-39): an optional literal
URL override and an optional variables map (an insertion-ordered dict). -/
structure ServerConfig where
  url : Option String := none
  vars : Option (List (String × String)) := none
deriving DecidableEq, Repr

/-- One value of the OpenAPI `variables` map of a server object: the embedding
keeps the only key the code reads, `default` (an absent key is `none`). -/
structure VarSpec where
  default : Option String := none
deriving DecidableEq, Repr

/-- The server object `api_data["servers"][0]`: its `url` (a mandatory key)
and its `variables` dict, `{}` when absent (`server_spec.get("variables", {})`). -/
structure ServerSpec where
  url : String
  vars : List (String × VarSpec) := []
deriving DecidableEq, Repr

/-- The two exceptions of URL resolution (errors.py): `UnknownServerVariableError`
carries the offending name and the available spec variable names,
`MissingServerVariableError` carries the variable name. -/
inductive ServerUrlError where
  | unknownVariable (name : String) (available : List String)
  | missingVariable (name : String)
deriving DecidableEq, Repr

/-- Python truthiness of `self._config.server and self._config.server.url`
(lambda_generator.py line 115): the override URL when the server config exists
and its `url` is a non-empty string. -/
def serverUrlOverride : Option ServerConfig → Option String
  | some sc =>
    match sc.url with
    | some u => if u = "" then none else some u
    | none => none
  | none => none

/-- The config's server-variables dict, `[]` whenever
`self._config.server and self._config.server.variables` is falsy. -/
def configVariables : Option ServerConfig → List (String × String)
  | some sc => sc.vars.getD []
  | none => []

/-- Python `str.replace` on char lists: replace non-overlapping occurrences of
`pat` left to right, resuming the search after each inserted replacement.  The
fuel argument (instantiated with the string length, which every step strictly
decreases, so it is never exhausted) keeps the recursion structural. -/
def replaceAllFuel (pat repl : List Char) : Nat → List Char → List Char
  | _, [] => []
  | 0, s => s
  | fuel + 1, c :: rest =>
    if !pat.isEmpty && pat.isPrefixOf (c :: rest) then
      repl ++ replaceAllFuel pat repl fuel ((c :: rest).drop pat.length)
    else c :: replaceAllFuel pat repl fuel rest

/-- Python `s.replace(pat, repl)` for a non-empty `pat` (every pattern the
code replaces is non-empty). -/
def pyReplace (s pat repl : String) : String :=
  ⟨replaceAllFuel pat.data repl.data s.data.length s.data⟩

/-- `_validate_config_variables` (lambda_generator.py lines 61-76): raise
`UnknownServerVariableError(var_name, available_vars)` at the first config
variable name not among the spec's variable names. -/
def validateConfigVariables (cfgVars : List (String × String))
    (specVars : List (String × VarSpec)) : Except ServerUrlError Unit :=
  match (cfgVars.map Prod.fst).find? (fun v => !((specVars.map Prod.fst).contains v)) with
  | some v => .error (.unknownVariable v (specVars.map Prod.fst))
  | none => .ok ()

/-- `_build_variable_values` (lambda_generator.py lines 78-103): for each spec
variable in order, the config override if present, else the spec `default`,
else `MissingServerVariableError`. -/
def buildVariableValues (cfgVars : List (String × String)) :
    List (String × VarSpec) → Except ServerUrlError (List (String × String))
  | [] => .ok []
  | (n, vs) :: rest =>
    match cfgVars.lookup n with
    | some v => (buildVariableValues cfgVars rest).map (fun r => (n, v) :: r)
    | none =>
      match vs.default with
      | some d => (buildVariableValues cfgVars rest).map (fun r => (n, d) :: r)
      | none => .error (.missingVariable n)

/-- `_resolve_server_url` (lambda_generator.py lines 105-140). -/
def resolveServerUrl (server : Option ServerConfig) (spec : ServerSpec) :
    Except ServerUrlError String :=
  match serverUrlOverride server with
  | some u => .ok u
  | none =>
    if spec.vars.isEmpty then
      match configVariables server with
      | [] => .ok spec.url
      | (n, _) :: _ => .error (.unknownVariable n [])
    else do
      let _ ← validateConfigVariables (configVariables server) spec.vars
      let finals ← buildVariableValues (configVariables server) spec.vars
      .ok (finals.foldl (fun u p => pyReplace u ("\x7b" ++ p.1 ++ "\x7d") p.2) spec.url)

/-- The claim's per-variable resolution rule: the config override if present,
else the spec default (`none` when neither exists). -/
def resolvedVariable (cfgVars : List (String × String)) (e : String × VarSpec) :
    Option String :=
  (cfgVars.lookup e.1).orElse (fun _ => e.2.default)

/-! ## Endpoint filter glob matching (`picofun/endpoint_filter.py` lines 93-122)

`_glob_match` escapes the pattern (`re.escape`), textually replaces every
escaped `\*\*` pair with `.+` first, then every remaining `\*` with `[^/]+`,
anchors with `^...$`, and tests `re.match` against the path.  The embedding
tokenizes the pattern exactly as that left-to-right replacement chain does
(greedy `**` pairing before `*`) and interprets the three Python regex pieces
directly: `[^/]+` is one or more non-`/` characters, `.+` is one or more
non-newline characters, and `$` accepts the end of the string or a lone
trailing newline. -/

/-- One token of the converted pattern: a literal character (everything
`re.escape` protects), `*` (`[^/]+`), or `**` (`.+`). -/
inductive GlobTok where
  | lit (c : Char)
  | star
  | dstar
deriving DecidableEq, Repr

/-- The pattern conversion: the textual `.replace(r"\*\*", ".+")` followed by
`.replace(r"\*", "[^/]+")` pairs stars greedily from the left, so two adjacent
stars become one `dstar` and a lone star becomes `star`. -/
def tokenizeGlob : List Char → List GlobTok
  | [] => []
  | c :: rest =>
    if c = '*' then
      match rest with
      | [] => [.star]
      | d :: rest2 =>
        if d = '*' then .dstar :: tokenizeGlob rest2
        else .star :: tokenizeGlob (d :: rest2)
    else .lit c :: tokenizeGlob rest

/-- Python's `$` anchor (without `re.MULTILINE`): end of string, or just
before a single trailing newline. -/
def reDollar (s : List Char) : Bool :=
  s == [] || s == ['\n']

/-- Matching of the converted, anchored pattern against the path, with the
backtracking-regex semantics of `re.match`: `star` consumes one or more
non-`/` characters, `dstar` one or more non-newline characters. -/
def reTokMatch : List GlobTok → List Char → Bool
  | [], s => reDollar s
  | .lit _ :: _, [] => false
  | .lit c :: ts, d :: s => c == d && reTokMatch ts s
  | .star :: _, [] => false
  | .star :: ts, d :: s => d != '/' && (reTokMatch ts s || reTokMatch (.star :: ts) s)
  | .dstar :: _, [] => false
  | .dstar :: ts, d :: s => d != '\n' && (reTokMatch ts s || reTokMatch (.dstar :: ts) s)

/-- `_glob_match` (endpoint_filter.py lines 93-122): exact string equality when
the pattern holds no `*`, otherwise the converted-regex match. -/
def globMatch (pattern path : List Char) : Bool :=
  if pattern.contains '*' then reTokMatch (tokenizeGlob pattern) path
  else pattern == path

/-- `_glob_match` on strings. -/
def globMatchS (pattern path : String) : Bool :=
  globMatch pattern.data path.data

/-! ## Endpoint filter state and matching (`picofun/endpoint_filter.py`) -/

/-- Python `str.lower` restricted to the ASCII range the code's inputs (HTTP
method names) use. -/
def pyLower (s : String) : String := ⟨s.data.map Char.toLower⟩

/-- One entry of the `paths` section of the filter file: a `path` pattern
(the `entry.get("path", "")` default makes an absent key `""`) and an optional
`methods` list; the Python falsy values `None` and `[]` behave identically in
`_match_path`, and are both represented here (`none` / `some []`). -/
structure PathEntry where
  path : String
  methods : Option (List String) := none
deriving DecidableEq, Repr

/-- The state an `EndpointFilter` instance holds after `__init__`
(endpoint_filter.py lines 22-34): the three criterion lists and the
`_has_filters` flag. -/
structure FilterState where
  paths : List PathEntry := []
  operationIds : List String := []
  tags : List String := []
  hasFilters : Bool := false
deriving DecidableEq, Repr

/-- The state of `EndpointFilter(None)`: no filter file, filtering disabled. -/
def emptyFilterState : FilterState := {}

/-- The two keys of the endpoint `details` dict that `is_included` reads:
`operationId` and `tags` (absent keys are `none`). -/
structure EndpointDetails where
  operationId : Option String := none
  tags : Option (List String) := none
deriving DecidableEq, Repr

/-- Python falsiness of a path entry's `methods` value (`None`, absent
or `[]`). -/
def methodsFalsy : Option (List String) → Bool
  | none => true
  | some l => l.isEmpty

/-- `_match_path` (endpoint_filter.py lines 71-91): some entry's glob pattern
matches the path, and its `methods` list — when truthy — holds the method. -/
def matchPath (f : FilterState) (path method : String) : Bool :=
  f.paths.any fun entry =>
    globMatchS entry.path path &&
      (methodsFalsy entry.methods || (entry.methods.getD []).contains method)

/-- `_match_operation_id` (endpoint_filter.py lines 124-133): `False` for a
falsy operationId (absent or empty string), else verbatim membership. -/
def matchOperationId (f : FilterState) (oid : Option String) : Bool :=
  match oid with
  | none => false
  | some s => if s = "" then false else f.operationIds.contains s

/-- `_match_tags` (endpoint_filter.py lines 135-144): `False` for falsy
endpoint tags, else non-empty set intersection with the configured tags. -/
def matchTags (f : FilterState) (etags : Option (List String)) : Bool :=
  match etags with
  | none => false
  | some l => if l.isEmpty then false else l.any (fun t => f.tags.contains t)

/-- `is_included` (endpoint_filter.py lines 146-173): everything passes with
no filters loaded, else the OR of the three criteria, with the method
lower-cased first. -/
def isIncluded (f : FilterState) (path method : String)
    (details : EndpointDetails) : Bool :=
  if !f.hasFilters then true
  else
    matchPath f path (pyLower method) || matchOperationId f details.operationId ||
      matchTags f details.tags

/-! ## Loading the filter file (`picofun/endpoint_filter.py` lines 36-69) -/

/-- A parsed YAML/Python value, as far as the loading code inspects one. -/
inductive PyValue where
  | none
  | bool (b : Bool)
  | int (n : Int)
  | str (s : String)
  | list (items : List PyValue)
  | dict (items : List (String × PyValue))

/-- Python truthiness of a parsed value. -/
def pyTruthy : PyValue → Bool
  | .none => false
  | .bool b => b
  | .int n => n != 0
  | .str s => s ≠ ""
  | .list l => !l.isEmpty
  | .dict l => !l.isEmpty

/-- The errors `_load` can raise: its three named exceptions, plus
`typeError` standing for the unhandled `AttributeError`/`TypeError` Python
raises when the parsed document (or a section of it) is not of the shape the
code then manipulates (e.g. `data.get` on a non-dict). -/
inductive FilterError where
  | fileNotFound
  | invalidYAML
  | emptyFile
  | typeError
deriving DecidableEq, Repr

/-- `data.get(key, []) or []` (endpoint_filter.py lines 57-59) for a mapping
`data`: the value when present and truthy, else `[]`. -/
def sectionValue (m : List (String × PyValue)) (key : String) : PyValue :=
  let v := (List.lookup key m).getD (PyValue.list [])
  if pyTruthy v then v else PyValue.list []

/-- Decode a section that the matching code treats as a list of strings; a
value of any other shape is outside the embedding's well-typed fragment. -/
def asStringList : PyValue → Option (List String)
  | .list items => items.mapM (fun it => match it with | .str s => some s | _ => Option.none)
  | _ => Option.none

/-- Decode one `paths` entry: a mapping with an optional string `path` and an
optional `methods` list, whose members are lower-cased at load time
(endpoint_filter.py lines 62-64); a falsy `methods` value is left alone. -/
def asPathEntry : PyValue → Option PathEntry
  | .dict m =>
    match (List.lookup "path" m).getD (PyValue.str "") with
    | .str p =>
      let methodsV := (List.lookup "methods" m).getD PyValue.none
      if pyTruthy methodsV then
        match methodsV with
        | .list items =>
          ((items.mapM (fun it => match it with | .str s => some s | _ => Option.none) :
              Option (List String))).map
            (fun ms => ({ path := p, methods := some (ms.map pyLower) } : PathEntry))
        | _ => Option.none
      else some ⟨p, Option.none⟩
    | _ => Option.none
  | _ => Option.none

/-- The section extraction and normalization part of `_load`
(endpoint_filter.py lines 57-69), for a document that parsed to a mapping:
extract the three sections, lower-case path-entry methods, compute
`_has_filters` and reject a criterion-free file. -/
def loadFilterSections (m : List (String × PyValue)) : Except FilterError FilterState :=
  match sectionValue m "paths", asStringList (sectionValue m "operationIds"),
      asStringList (sectionValue m "tags") with
  | .list pitems, some ops, some tags =>
    match pitems.mapM asPathEntry with
    | some entries =>
      if !pitems.isEmpty || !ops.isEmpty || !tags.isEmpty then
        .ok ⟨entries, ops, tags, true⟩
      else .error .emptyFile
    | Option.none => .error .typeError
  | _, _, _ => .error .typeError

/-- `_load` (endpoint_filter.py lines 36-69).  `fileExists` is the
`os.path.isfile` test; `parsed` is the result of `yaml.safe_load` (`none` for
a `YAMLError`).  Ill-typed documents map to `typeError` (the code would crash
with an unhandled `AttributeError`/`TypeError` at load or match time). -/
def loadEndpointFilter (fileExists : Bool) (parsed : Option PyValue) :
    Except FilterError FilterState :=
  if !fileExists then .error .fileNotFound
  else
    match parsed with
    | Option.none => .error .invalidYAML
    | some data =>
      if !pyTruthy data then .error .emptyFile
      else
        match data with
        | .dict m => loadFilterSections m
        | _ => .error .typeError

/-! ## Config loading (`picofun/config.py` lines 301-390) and subnet
validation (lines 226-253) -/

/-- The config-loading exceptions the embedded fragment can raise. -/
inductive ConfigError where
  | configFileNotFound (path : String)
  | invalidConfig
deriving DecidableEq, Repr

/-- `os.path.join(a, "picofun.toml")` for the directory paths the loader
joins (a non-empty `a` and a relative file name). -/
def osPathJoin (a b : String) : String :=
  if a = "" then b
  else if a.data.getLast? = some '/' then a ++ b
  else a ++ "/" ++ b

/-- `ConfigLoader._get_config_file` (config.py lines 316-335): fall back to
the current working directory for a falsy argument (`None` or `""`), then
append the fixed file name when the path is a directory.  `isDir` is the
`os.path.isdir` probe. -/
def getConfigFile (given : Option String) (cwd : String) (isDir : String → Bool) :
    String :=
  let f := match given with
    | some p => if p = "" then cwd else p
    | none => cwd
  if isDir f then osPathJoin f "picofun.toml" else f

/-- `ConfigLoader.load_from_file` (config.py lines 348-390): a missing file
raises `ConfigFileNotFoundError` with the path, unparseable TOML raises
`InvalidConfigError`; further construction works on the parsed document,
abstracted as `α`.  `isFile` is the `os.path.isfile` probe and `parse` the
`tomlkit.load` boundary (`none` for a `ParseError`). -/
def loadFromFile {α : Type} (isFile : String → Bool) (parse : String → Option α)
    (path : String) : Except ConfigError α :=
  if !isFile path then .error (.configFileNotFound path)
  else
    match parse path with
    | Option.none => .error .invalidConfig
    | some doc => .ok doc

/-- `ConfigLoader.__init__` (config.py lines 304-314): resolve the config
file path, then load it — unconditionally, in both discovery modes. -/
def configLoaderInit {α : Type} (given : Option String) (cwd : String)
    (isDir : String → Bool) (isFile : String → Bool) (parse : String → Option α) :
    Except ConfigError α :=
  loadFromFile isFile parse (getConfigFile given cwd isDir)

/-- The two input shapes `Config.validate_subnets` accepts (`str | list[str]`). -/
inductive SubnetsValue where
  | str (s : String)
  | list (l : List String)
deriving DecidableEq, Repr

/-- The ASCII whitespace characters Python `str.strip()` removes. -/
def pyIsSpace (c : Char) : Bool :=
  c = ' ' || c = '\t' || c = '\n' || c = '\r' || c = '\x0b' || c = '\x0c'

/-- Python `str.strip()`: drop leading and trailing whitespace. -/
def pyStrip (s : String) : String :=
  ⟨(((s.data.dropWhile pyIsSpace).reverse.dropWhile pyIsSpace)).reverse⟩

/-- `s[:n]` for a non-negative `n`, in characters. -/
def pyTake (s : String) (n : Nat) : String := ⟨s.data.take n⟩

/-- Python `s.split(",")` on char lists: split at every comma, keeping empty
pieces (`"".split(",") == [""]`). -/
def splitCommaAux : List Char → List Char → List String
  | [], acc => [⟨acc.reverse⟩]
  | c :: rest, acc =>
    if c = ',' then ⟨acc.reverse⟩ :: splitCommaAux rest []
    else splitCommaAux rest (c :: acc)

/-- Python `s.split(",")`. -/
def pySplitComma (s : String) : List String := splitCommaAux s.data []

/-- The list normalization of `validate_subnets` (config.py lines 243-248):
a string is split on commas, each item stripped, falsy (empty) items dropped;
a list passes through as-is. -/
def normalizeSubnets : SubnetsValue → List String
  | .str s => ((pySplitComma s).map pyStrip).filter (fun item => item ≠ "")
  | .list l => l

/-- `Config.validate_subnets` (config.py lines 226-253): after normalization,
raise `ValueError` when any entry's first seven characters are not exactly
`subnet-` (`subnet[:7] != "subnet-"`), else return the entries unchanged. -/
def validateSubnets (v : SubnetsValue) : Except String (List String) :=
  let subnets := normalizeSubnets v
  if (subnets.filter (fun sn => pyTake sn 7 ≠ "subnet-")).length ≠ 0 then
    .error "Subnets must be in the format 'subnet-[hex]'"
  else .ok subnets

/-- The format the CLAIM asserts (`subnet-` followed by hex characters),
stated from the spec's words for comparison with the code's check. -/
def isHexChar (c : Char) : Bool :=
  ('0' ≤ c && c ≤ '9') || ('a' ≤ c && c ≤ 'f') || ('A' ≤ c && c ≤ 'F')

/-- `subnet-<hex>` as the claim describes it: the literal prefix followed by
one or more hex characters. -/
def matchesSubnetHexFormat (s : String) : Bool :=
  pyTake s 7 == "subnet-" && decide (7 < s.data.length) && (s.data.drop 7).all isHexChar

/-! ## Config.merge (`picofun/config.py` lines 280-298)

The pydantic `Config` object is embedded as an association list of its
attributes.  `setattr` with `validate_assignment=True` runs field validators
that may transform the assigned value; the validators live behind file-system
probes, so they are abstracted as an arbitrary per-field `transform` function
— every theorem below holds for all of them.  The direct
`self.server = ServerConfig(url=server_url)` assignment stores an
already-validated model, embedded as the dict it prints to. -/

/-- Python attribute assignment on the embedded object: replace the value at
the (unique) key, adding the key if absent. -/
def setField : List (String × PyValue) → String → PyValue → List (String × PyValue)
  | [], k, v => [(k, v)]
  | (k', v') :: rest, k, v =>
    if k' = k then (k, v) :: rest else (k', v') :: setField rest k v

/-- `ServerConfig(url=server_url)` (config.py line 292) as a stored value. -/
def mkServerConfigUrl (v : PyValue) : PyValue :=
  .dict [("url", v), ("variables", .none)]

/-- The general override loop of `merge` (config.py lines 296-298): each
truthy value is assigned through the field's validation (`transform`), each
falsy value is skipped. -/
def mergeLoop (transform : String → PyValue → PyValue)
    (cfg : List (String × PyValue)) (kwargs : List (String × PyValue)) :
    List (String × PyValue) :=
  kwargs.foldl
    (fun c kv => if pyTruthy kv.2 then setField c kv.1 (transform kv.1 kv.2) else c) cfg

/-- `Config.merge` (config.py lines 280-298): a truthy `server_url` replaces
the whole server configuration up front and is removed from the kwargs; the
rest go through the falsy-skip loop. -/
def mergeConfig (transform : String → PyValue → PyValue)
    (cfg kwargs : List (String × PyValue)) : List (String × PyValue) :=
  match List.lookup "server_url" kwargs with
  | some v =>
    if pyTruthy v then
      mergeLoop transform (setField cfg "server" (mkServerConfigUrl v))
        (kwargs.filter (fun kv => kv.1 ≠ "server_url"))
    else mergeLoop transform cfg kwargs
  | none => mergeLoop transform cfg kwargs

/-! ## SHA-512 (`hashlib.sha512(...).hexdigest()`), used by `_get_name`
(lambda_generator.py lines 52-57) for the truncation suffix.  A direct
implementation of FIPS 180-4 on `Nat` with explicit reduction modulo 2^64. -/

def w64 (n : Nat) : Nat := n % 18446744073709551616

def mask64 : Nat := 18446744073709551615

def rotr64 (x n : Nat) : Nat := w64 ((x >>> n) ||| (x <<< (64 - n)))

def shaCh (x y z : Nat) : Nat := (x &&& y) ^^^ ((x ^^^ mask64) &&& z)

def shaMaj (x y z : Nat) : Nat := (x &&& y) ^^^ (x &&& z) ^^^ (y &&& z)

def bigSigma0 (x : Nat) : Nat := rotr64 x 28 ^^^ rotr64 x 34 ^^^ rotr64 x 39

def bigSigma1 (x : Nat) : Nat := rotr64 x 14 ^^^ rotr64 x 18 ^^^ rotr64 x 41

def smallSigma0 (x : Nat) : Nat := rotr64 x 1 ^^^ rotr64 x 8 ^^^ (x >>> 7)

def smallSigma1 (x : Nat) : Nat := rotr64 x 19 ^^^ rotr64 x 61 ^^^ (x >>> 6)

/-- The 80 round constants (first 64 bits of the fractional parts of the cube
roots of the first 80 primes). -/
def sha512K : List Nat := [
  4794697086780616226, 8158064640168781261, 13096744586834688815,
  16840607885511220156, 4131703408338449720, 6480981068601479193,
  10538285296894168987, 12329834152419229976, 15566598209576043074,
  1334009975649890238, 2608012711638119052, 6128411473006802146,
  8268148722764581231, 9286055187155687089, 11230858885718282805,
  13951009754708518548, 16472876342353939154, 17275323862435702243,
  1135362057144423861, 2597628984639134821, 3308224258029322869,
  5365058923640841347, 6679025012923562964, 8573033837759648693,
  10970295158949994411, 12119686244451234320, 12683024718118986047,
  13788192230050041572, 14330467153632333762, 15395433587784984357,
  489312712824947311, 1452737877330783856, 2861767655752347644,
  3322285676063803686, 5560940570517711597, 5996557281743188959,
  7280758554555802590, 8532644243296465576, 9350256976987008742,
  10552545826968843579, 11727347734174303076, 12113106623233404929,
  14000437183269869457, 14369950271660146224, 15101387698204529176,
  15463397548674623760, 17586052441742319658, 1182934255886127544,
  1847814050463011016, 2177327727835720531, 2830643537854262169,
  3796741975233480872, 4115178125766777443, 5681478168544905931,
  6601373596472566643, 7507060721942968483, 8399075790359081724,
  8693463985226723168, 9568029438360202098, 10144078919501101548,
  10430055236837252648, 11840083180663258601, 13761210420658862357,
  14299343276471374635, 14566680578165727644, 15097957966210449927,
  16922976911328602910, 17689382322260857208, 500013540394364858,
  748580250866718886, 1242879168328830382, 1977374033974150939,
  2944078676154940804, 3659926193048069267, 4368137639120453308,
  4836135668995329356, 5532061633213252278, 6448918945643986474,
  6902733635092675308, 7801388544844847127]

/-- The initial hash value. -/
def sha512H0 : List Nat :=
  [7640891576956012808,
   13503953896175478587,
   4354685564936845355,
   11912009170470909681,
   5840696475078001361,
   11170449401992604703,
   2270897969802886507,
   6620516959819538809]

/-- The 128-bit big-endian message length in bytes. -/
def sha512LenBytes (bitLen : Nat) : List Nat :=
  (List.range 16).map (fun i => (bitLen >>> (8 * (15 - i))) % 256)

/-- FIPS 180-4 padding: `0x80`, zeros to 112 mod 128, then the bit length. -/
def sha512Pad (msg : List Nat) : List Nat :=
  let padZeros := (240 - ((msg.length + 1) % 128)) % 128
  msg ++ [128] ++ List.replicate padZeros 0 ++ sha512LenBytes (8 * msg.length)

/-- Split into chunks of `n` elements (`n ≥ 1`; the fuel, instantiated with
the list length, keeps the recursion structural and is never exhausted). -/
def chunkListFuel {α : Type} : Nat → Nat → List α → List (List α)
  | _, _, [] => []
  | 0, _, s => [s]
  | fuel + 1, n, s => s.take n :: chunkListFuel fuel n (s.drop n)

def chunkList {α : Type} (n : Nat) (s : List α) : List (List α) :=
  chunkListFuel s.length n s

/-- A big-endian 64-bit word from 8 bytes. -/
def bytesToWord64 (bs : List Nat) : Nat := bs.foldl (fun acc b => acc * 256 + b) 0

structure Sha512State where
  a : Nat
  b : Nat
  c : Nat
  d : Nat
  e : Nat
  f : Nat
  g : Nat
  h : Nat

def sha512Round (st : Sha512State) (kw : Nat × Nat) : Sha512State :=
  let t1 := w64 (st.h + bigSigma1 st.e + shaCh st.e st.f st.g + kw.1 + kw.2)
  let t2 := w64 (bigSigma0 st.a + shaMaj st.a st.b st.c)
  ⟨w64 (t1 + t2), st.a, st.b, st.c, w64 (st.d + t1), st.e, st.f, st.g⟩

def extendScheduleStep (w : Array Nat) : Array Nat :=
  let t := w.size
  w.push (w64 (smallSigma1 (w.getD (t - 2) 0) + w.getD (t - 7) 0 +
    smallSigma0 (w.getD (t - 15) 0) + w.getD (t - 16) 0))

def iterate {α : Type} (f : α → α) : Nat → α → α
  | 0, x => x
  | n + 1, x => iterate f n (f x)

/-- The 80-entry message schedule of one 1024-bit block. -/
def sha512Schedule (block : List Nat) : List Nat :=
  ((iterate extendScheduleStep 64 ((chunkList 8 block).map bytesToWord64).toArray)).toList

/-- One compression-function application. -/
def sha512Compress (hs : List Nat) (block : List Nat) : List Nat :=
  let ws := sha512Schedule block
  let h0 := hs.getD 0 0
  let h1 := hs.getD 1 0
  let h2 := hs.getD 2 0
  let h3 := hs.getD 3 0
  let h4 := hs.getD 4 0
  let h5 := hs.getD 5 0
  let h6 := hs.getD 6 0
  let h7 := hs.getD 7 0
  let st := (sha512K.zip ws).foldl sha512Round ⟨h0, h1, h2, h3, h4, h5, h6, h7⟩
  [w64 (h0 + st.a), w64 (h1 + st.b), w64 (h2 + st.c), w64 (h3 + st.d),
   w64 (h4 + st.e), w64 (h5 + st.f), w64 (h6 + st.g), w64 (h7 + st.h)]

/-- The eight final hash words of a byte message. -/
def sha512Words (msg : List Nat) : List Nat :=
  (chunkList 128 (sha512Pad msg)).foldl sha512Compress sha512H0

def hexDigitChar (n : Nat) : Char :=
  if n < 10 then Char.ofNat (48 + n) else Char.ofNat (87 + n)

def word64Hex (x : Nat) : List Char :=
  (List.range 16).map (fun i => hexDigitChar ((x >>> (4 * (15 - i))) &&& 15))

/-- `hashlib.sha512(msg).hexdigest()`: 128 lowercase hex characters. -/
def sha512Hexdigest (msg : List Nat) : String :=
  ⟨(sha512Words msg).flatMap word64Hex⟩

/-- UTF-8 encoding of one character (`str.encode()`). -/
def utf8EncodeChar (c : Char) : List Nat :=
  let n := c.toNat
  if n < 128 then [n]
  else if n < 2048 then [192 + n / 64, 128 + n % 64]
  else if n < 65536 then [224 + n / 4096, 128 + (n / 64) % 64, 128 + n % 64]
  else [240 + n / 262144, 128 + (n / 4096) % 64, 128 + (n / 64) % 64, 128 + n % 64]

/-- `s.encode()`: the UTF-8 bytes of a string. -/
def strBytes (s : String) : List Nat := s.data.flatMap utf8EncodeChar

/-! ## Lambda name derivation (`picofun/lambda_generator.py` lines 42-59) -/

/-- Python `str.strip("_")`: drop leading and trailing underscores. -/
def stripUnderscores (l : List Char) : List Char :=
  ((l.dropWhile (fun c => c = '_')).reverse.dropWhile (fun c => c = '_')).reverse

/-- The untruncated `lambda_name` of `_get_name` (lines 47-50): strip braces,
replace `/` and `.` with `_`, strip edge underscores, prefix `method_`. -/
def rawLambdaName (method path : String) : String :=
  let cleanPath := pyReplace (pyReplace path "\x7b" "") "\x7d" ""
  let core := pyReplace (pyReplace cleanPath "/" "_") "." "_"
  method ++ "_" ++ (⟨stripUnderscores core.data⟩ : String)

/-- `self.max_length = 64 - len(f"{namespace}_")` (line 42), on `Int` because
Python's subtraction can go negative for a long namespace. -/
def maxNameLength (ns : String) : Int := 64 - ((ns ++ "_").data.length : Int)

/-- `self.prefix_length = self.max_length - LAMBDA_SUFFIX_LENGTH - 1`
(line 44), with `LAMBDA_SUFFIX_LENGTH = 4`. -/
def namePrefixLength (ns : String) : Int := maxNameLength ns - 4 - 1

/-- Python `s[:k]` for an `Int` bound: a negative bound counts from the end. -/
def pySliceTo (s : String) (k : Int) : String :=
  if 0 ≤ k then ⟨s.data.take k.toNat⟩
  else ⟨s.data.take (s.data.length - (-k).toNat)⟩

/-- `_get_name` (lambda_generator.py lines 46-59). -/
def getName (ns method path : String) : String :=
  let name := rawLambdaName method path
  if maxNameLength ns < (name.data.length : Int) then
    pySliceTo name (namePrefixLength ns) ++ "_" ++
      (⟨(sha512Hexdigest (strBytes name)).data.take 4⟩ : String)
  else name

/-! ## `LambdaGenerator.generate` (`picofun/lambda_generator.py` lines 142-186)

The rendering and file writes are I/O collaborators outside this core; the
embedding keeps what the claims are about: URL resolution up front (its errors
propagate), the method allow-list, the endpoint filter, name derivation, and
the final lexicographic sort of the collected names.  Python string
comparison is code-point lexicographic (`pyStrLe`), and `list.sort` produces
the unique sorted arrangement of the collected names, which
`List.insertionSort` also produces. -/

/-- Code-point lexicographic `<=` on char lists — Python string comparison. -/
def listCharLe : List Char → List Char → Bool
  | [], _ => true
  | _ :: _, [] => false
  | c :: cs, d :: ds =>
    if c.toNat < d.toNat then true
    else if d.toNat < c.toNat then false
    else listCharLe cs ds

/-- Python `<=` on strings. -/
def pyStrLe (a b : String) : Bool := listCharLe a.data b.data

/-- `pyStrLe` as a relation, for the sorting lemmas. -/
def pyStrLeRel (a b : String) : Prop := pyStrLe a b = true

instance : DecidableRel pyStrLeRel := fun a b => instDecidableEqBool (pyStrLe a b) true

/-- Python string comparison is total. -/
instance instIsTotalPyStrLe : IsTotal String pyStrLeRel := by
  constructor
  suffices h : ∀ x y : List Char, listCharLe x y = true ∨ listCharLe y x = true by
    intro a b
    exact h a.data b.data
  intro x
  induction x with
  | nil => intro y; left; rfl
  | cons c cs ih =>
    intro y
    cases y with
    | nil => right; rfl
    | cons d ds =>
      by_cases h1 : c.toNat < d.toNat
      · left; simp [listCharLe, h1]
      · by_cases h2 : d.toNat < c.toNat
        · right; simp [listCharLe, h2]
        · rcases ih ds with h | h
          · left; simp [listCharLe, h1, h2, h]
          · right; simp [listCharLe, h1, h2, h]

/-- Python string comparison is transitive. -/
instance instIsTransPyStrLe : IsTrans String pyStrLeRel := by
  constructor
  suffices h : ∀ x y z : List Char, listCharLe x y = true → listCharLe y z = true →
      listCharLe x z = true by
    intro a b c h1 h2
    exact h a.data b.data c.data h1 h2
  intro x
  induction x with
  | nil => intro y z _ _; rfl
  | cons x0 xs ih =>
    intro y z h1 h2
    cases y with
    | nil => simp [listCharLe] at h1
    | cons y0 ys =>
      cases z with
      | nil => simp [listCharLe] at h2
      | cons z0 zs =>
        simp only [listCharLe] at h1 h2 ⊢
        by_cases hxy : x0.toNat < y0.toNat
        · by_cases hyz : y0.toNat < z0.toNat
          · simp [show x0.toNat < z0.toNat by omega]
          · by_cases hzy : z0.toNat < y0.toNat
            · rw [if_neg hyz, if_pos hzy] at h2; cases h2
            · simp [show x0.toNat < z0.toNat by omega]
        · by_cases hyx : y0.toNat < x0.toNat
          · rw [if_neg hxy, if_pos hyx] at h1; cases h1
          · rw [if_neg hxy, if_neg hyx] at h1
            by_cases hyz : y0.toNat < z0.toNat
            · simp [show x0.toNat < z0.toNat by omega]
            · by_cases hzy : z0.toNat < y0.toNat
              · rw [if_neg hyz, if_pos hzy] at h2; cases h2
              · rw [if_neg hyz, if_neg hzy] at h2
                rw [if_neg (show ¬ x0.toNat < z0.toNat by omega),
                  if_neg (show ¬ z0.toNat < x0.toNat by omega)]
                exact ih ys zs h1 h2

/-- Python string comparison is antisymmetric. -/
instance instIsAntisymmPyStrLe : IsAntisymm String pyStrLeRel := by
  constructor
  suffices h : ∀ x y : List Char, listCharLe x y = true → listCharLe y x = true →
      x = y by
    intro a b h1 h2
    exact String.ext (h a.data b.data h1 h2)
  intro x
  induction x with
  | nil =>
    intro y _ h2
    cases y with
    | nil => rfl
    | cons d ds => simp [listCharLe] at h2
  | cons c cs ih =>
    intro y h1 h2
    cases y with
    | nil => simp [listCharLe] at h1
    | cons d ds =>
      simp only [listCharLe] at h1 h2
      by_cases hcd : c.toNat < d.toNat
      · rw [if_neg (show ¬ d.toNat < c.toNat by omega), if_pos hcd] at h2; cases h2
      · by_cases hdc : d.toNat < c.toNat
        · rw [if_neg hcd, if_pos hdc] at h1; cases h1
        · rw [if_neg hcd, if_neg hdc] at h1
          rw [if_neg hdc, if_neg hcd] at h2
          have hch : c = d := Char.eq_of_val_eq (UInt32.ext (show c.toNat = d.toNat by omega))
          rw [hch, ih ds h1 h2]


/-- The parsed OpenAPI document, as far as `generate` reads it:
`api_data["servers"][0]` and the `paths` mapping (path → method → details). -/
structure ApiData where
  serverSpec : ServerSpec
  paths : List (String × List (String × EndpointDetails))

/-- The method allow-list of `generate` (line 158). -/
def allowedMethods : List String := ["get", "put", "post", "delete", "patch", "head"]

/-- The collection loop of `generate` (lines 155-183): skip non-allow-listed
methods, skip filtered-out endpoints, derive each kept name in iteration
order. -/
def collectLambdas (ns : String) (f : FilterState)
    (paths : List (String × List (String × EndpointDetails))) : List String :=
  paths.flatMap (fun pe =>
    pe.2.filterMap (fun me =>
      if allowedMethods.contains me.1 && isIncluded f pe.1 me.1 me.2 then
        some (getName ns me.1 pe.1)
      else none))

/-- `generate` (lines 142-186): resolve the server URL (errors propagate),
collect the names, `lambdas.sort()`, return. -/
def generate (ns : String) (server : Option ServerConfig) (f : FilterState)
    (api : ApiData) : Except ServerUrlError (List String) :=
  match resolveServerUrl server api.serverSpec with
  | .error e => .error e
  | .ok _ => .ok (List.insertionSort pyStrLeRel (collectLambdas ns f api.paths))

/-! ## Theorems -/

theorem minByPriority_cons (s x : SecurityScheme) (xs : List SecurityScheme) :
    minByPriority s (x :: xs) =
      minByPriority (if getSchemePriority x < getSchemePriority s then x else s) xs := rfl

theorem minByPriority_mem (s : SecurityScheme) (rest : List SecurityScheme) :
    minByPriority s rest = s ∨ minByPriority s rest ∈ rest := by
  induction rest generalizing s with
  | nil => exact Or.inl rfl
  | cons x xs ih =>
    rw [minByPriority_cons]
    by_cases h : getSchemePriority x < getSchemePriority s
    · rw [if_pos h]
      rcases ih x with h1 | h1
      · exact Or.inr (by rw [h1]; exact List.mem_cons_self x xs)
      · exact Or.inr (List.mem_cons_of_mem x h1)
    · rw [if_neg h]
      rcases ih s with h1 | h1
      · exact Or.inl h1
      · exact Or.inr (List.mem_cons_of_mem x h1)

theorem minByPriority_le (s : SecurityScheme) (rest : List SecurityScheme) :
    ∀ t, (t = s ∨ t ∈ rest) →
      getSchemePriority (minByPriority s rest) ≤ getSchemePriority t := by
  induction rest generalizing s with
  | nil =>
    intro t ht
    rcases ht with rfl | h
    · exact le_refl _
    · cases h
  | cons x xs ih =>
    intro t ht
    rw [minByPriority_cons]
    by_cases h : getSchemePriority x < getSchemePriority s
    · rw [if_pos h]
      rcases ht with heq | ht
      · rw [heq]; exact le_trans (ih x x (Or.inl rfl)) (le_of_lt h)
      · rcases List.mem_cons.mp ht with heq | ht
        · rw [heq]; exact ih x x (Or.inl rfl)
        · exact ih x t (Or.inr ht)
    · rw [if_neg h]
      rcases ht with heq | ht
      · rw [heq]; exact ih s s (Or.inl rfl)
      · rcases List.mem_cons.mp ht with heq | ht
        · rw [heq]; exact le_trans (ih s s (Or.inl rfl)) (le_of_not_lt h)
        · exact ih s t (Or.inr ht)

theorem supported_filter_eq_nil_iff (schemes : List (String × SecurityScheme))
    (gs : List String) :
    supportedSchemes schemes gs = []
      ↔ ∀ p ∈ schemes, p.1 ∈ gs → isSupportedScheme p.2 = false := by
  simp only [supportedSchemes, referencedSchemes, List.filter_eq_nil_iff, List.mem_map,
    List.mem_filter]
  constructor
  · intro h p hp hmem
    by_contra hne
    exact h p.2 ⟨p, ⟨hp, by simpa using hmem⟩, rfl⟩ (by simpa using hne)
  · rintro h s ⟨p, ⟨hp, hc⟩, rfl⟩ hs
    exact absurd (h p hp (by simpa using hc)) (by simpa using hs)

theorem unsupported_names_eq_nil_iff (schemes : List (String × SecurityScheme))
    (gs : List String) :
    unsupportedSchemeNames schemes gs = []
      ↔ ∀ p ∈ schemes, p.1 ∈ gs → isUnsupportedScheme p.2 = false := by
  simp only [unsupportedSchemeNames, referencedSchemes, List.map_eq_nil_iff,
    List.filter_eq_nil_iff, List.mem_filter]
  constructor
  · intro h p hp hmem
    by_contra hne
    exact h p ⟨hp, by simpa using hmem⟩ (by simpa using hne)
  · rintro h p ⟨hp, hc⟩ hu
    exact absurd (h p hp (by simpa using hc)) (by simpa using hu)

theorem mem_supported_filter_iff (schemes : List (String × SecurityScheme))
    (gs : List String) (s : SecurityScheme) :
    s ∈ supportedSchemes schemes gs
      ↔ (∃ p ∈ schemes, p.1 ∈ gs ∧ p.2 = s) ∧ isSupportedScheme s = true := by
  simp only [supportedSchemes, referencedSchemes, List.mem_filter, List.mem_map,
    List.mem_filter]
  constructor
  · rintro ⟨⟨p, ⟨hp, hc⟩, rfl⟩, hs⟩
    exact ⟨⟨p, hp, by simpa using hc, rfl⟩, hs⟩
  · rintro ⟨⟨p, hp, hc, rfl⟩, hs⟩
    exact ⟨⟨p, ⟨hp, by simpa using hc⟩, rfl⟩, hs⟩

theorem unsupported_names_ne_nil_iff (schemes : List (String × SecurityScheme))
    (gs : List String) :
    unsupportedSchemeNames schemes gs ≠ []
      ↔ ∃ p ∈ schemes, p.1 ∈ gs ∧ isUnsupportedScheme p.2 = true := by
  rw [Ne, unsupported_names_eq_nil_iff]
  push_neg
  constructor
  · rintro ⟨p, hp, hm, hne⟩
    exact ⟨p, hp, hm, by simpa using hne⟩
  · rintro ⟨p, hp, hm, ht⟩
    exact ⟨p, hp, hm, by simp [ht]⟩

theorem selectSecurityScheme_error_iff (schemes : List (String × SecurityScheme))
    (gs : List String) (l : List String) :
    selectSecurityScheme schemes gs = .error l ↔
      ((∃ p ∈ schemes, p.1 ∈ gs ∧ isUnsupportedScheme p.2 = true) ∧
        (∀ p ∈ schemes, p.1 ∈ gs → isSupportedScheme p.2 = false) ∧
        l = unsupportedSchemeNames schemes gs) := by
  by_cases h1 : schemes = []
  · subst h1
    simp [selectSecurityScheme]
  by_cases h2 : referencedSchemes schemes gs = []
  · have hsel : selectSecurityScheme schemes gs = .ok none := by
      unfold selectSecurityScheme
      rw [if_neg (by simp [h1]), if_pos (by simp [h2])]
    rw [hsel]
    simp only [List.filter_eq_nil_iff, referencedSchemes] at h2
    constructor
    · intro h
      cases h
    · rintro ⟨⟨p, hp, hmem, _⟩, _, _⟩
      exact absurd (by simpa using hmem : gs.contains p.1 = true) (h2 p hp)
  have hsel : selectSecurityScheme schemes gs =
      (if !(unsupportedSchemeNames schemes gs).isEmpty && (supportedSchemes schemes gs).isEmpty
        then .error (unsupportedSchemeNames schemes gs)
      else
        match supportedSchemes schemes gs with
        | [] => .ok none
        | s :: rest => .ok (some (minByPriority s rest))) := by
    unfold selectSecurityScheme
    rw [if_neg (by simp [h1]), if_neg (by simp [h2])]
  by_cases h3 : !(unsupportedSchemeNames schemes gs).isEmpty
      && (supportedSchemes schemes gs).isEmpty
  · rw [hsel, if_pos h3]
    rw [Bool.and_eq_true, Bool.not_eq_true', List.isEmpty_eq_false, List.isEmpty_iff] at h3
    obtain ⟨hnames, hsupp⟩ := h3
    constructor
    · intro h
      refine ⟨(unsupported_names_ne_nil_iff schemes gs).mp hnames,
        (supported_filter_eq_nil_iff schemes gs).mp hsupp, ?_⟩
      exact ((Except.error.injEq _ _).mp h).symm
    · rintro ⟨_, _, rfl⟩
      rfl
  · rw [hsel, if_neg h3]
    constructor
    · intro h
      exfalso
      revert h
      split <;> intro h <;> cases h
    · rintro ⟨hex, hall, rfl⟩
      exfalso
      apply h3
      rw [Bool.and_eq_true, Bool.not_eq_true', List.isEmpty_eq_false, List.isEmpty_iff]
      exact ⟨(unsupported_names_ne_nil_iff schemes gs).mpr hex,
        (supported_filter_eq_nil_iff schemes gs).mpr hall⟩

theorem selectSecurityScheme_none_of_unreferenced (schemes : List (String × SecurityScheme))
    (gs : List String) (h : ∀ p ∈ schemes, p.1 ∉ gs) :
    selectSecurityScheme schemes gs = .ok none := by
  have h2 : referencedSchemes schemes gs = [] := by
    simp only [referencedSchemes, List.filter_eq_nil_iff]
    intro p hp
    simpa using h p hp
  by_cases h1 : schemes = []
  · subst h1; rfl
  · unfold selectSecurityScheme
    rw [if_neg (by simp [h1]), if_pos (by simp [h2])]

theorem selectSecurityScheme_none_of_neither (schemes : List (String × SecurityScheme))
    (gs : List String)
    (h : ∀ p ∈ schemes, p.1 ∈ gs →
      isSupportedScheme p.2 = false ∧ isUnsupportedScheme p.2 = false) :
    selectSecurityScheme schemes gs = .ok none := by
  by_cases h1 : schemes = []
  · subst h1; rfl
  by_cases h2 : referencedSchemes schemes gs = []
  · unfold selectSecurityScheme
    rw [if_neg (by simp [h1]), if_pos (by simp [h2])]
  have hnames : unsupportedSchemeNames schemes gs = [] :=
    (unsupported_names_eq_nil_iff schemes gs).mpr (fun p hp hm => (h p hp hm).2)
  have hsupp : supportedSchemes schemes gs = [] :=
    (supported_filter_eq_nil_iff schemes gs).mpr (fun p hp hm => (h p hp hm).1)
  unfold selectSecurityScheme
  rw [if_neg (by simp [h1]), if_neg (by simp [h2]), if_neg (by simp [hnames]), hsupp]

theorem selectSecurityScheme_min_of_supported (schemes : List (String × SecurityScheme))
    (gs : List String)
    (h : ∃ p ∈ schemes, p.1 ∈ gs ∧ isSupportedScheme p.2 = true) :
    ∃ s, selectSecurityScheme schemes gs = .ok (some s) ∧
      (∃ p ∈ schemes, p.1 ∈ gs ∧ p.2 = s) ∧ isSupportedScheme s = true ∧
      ∀ q ∈ schemes, q.1 ∈ gs → isSupportedScheme q.2 = true →
        getSchemePriority s ≤ getSchemePriority q.2 := by
  obtain ⟨p, hp, hmem, hsupp⟩ := h
  have h1 : schemes ≠ [] := by
    intro hnil; rw [hnil] at hp; exact absurd hp (List.not_mem_nil p)
  have hpmem : p.2 ∈ supportedSchemes schemes gs :=
    (mem_supported_filter_iff schemes gs p.2).mpr ⟨⟨p, hp, hmem, rfl⟩, hsupp⟩
  have h2 : referencedSchemes schemes gs ≠ [] := by
    intro hnil
    simp only [referencedSchemes, List.filter_eq_nil_iff] at hnil
    exact absurd (by simpa using hmem : gs.contains p.1 = true) (hnil p hp)
  have hne : supportedSchemes schemes gs ≠ [] := by
    intro hnil; rw [hnil] at hpmem; exact absurd hpmem (List.not_mem_nil p.2)
  obtain ⟨s, rest, heq⟩ := List.exists_cons_of_ne_nil hne
  have hsel : selectSecurityScheme schemes gs = .ok (some (minByPriority s rest)) := by
    unfold selectSecurityScheme
    rw [if_neg (by simp [h1]), if_neg (by simp [h2]),
      if_neg (by simp [heq]), heq]
  refine ⟨minByPriority s rest, hsel, ?_, ?_, ?_⟩
  · have hmin : minByPriority s rest ∈ supportedSchemes schemes gs := by
      rw [heq]
      rcases minByPriority_mem s rest with hm | hm
      · rw [hm]; exact List.mem_cons_self s rest
      · exact List.mem_cons_of_mem s hm
    exact ((mem_supported_filter_iff schemes gs _).mp hmin).1
  · have hmin : minByPriority s rest ∈ supportedSchemes schemes gs := by
      rw [heq]
      rcases minByPriority_mem s rest with hm | hm
      · rw [hm]; exact List.mem_cons_self s rest
      · exact List.mem_cons_of_mem s hm
    exact ((mem_supported_filter_iff schemes gs _).mp hmin).2
  · intro q hq hqmem hqsupp
    have hq2 : q.2 ∈ supportedSchemes schemes gs :=
      (mem_supported_filter_iff schemes gs q.2).mpr ⟨⟨q, hq, hqmem, rfl⟩, hqsupp⟩
    rw [heq] at hq2
    rcases List.mem_cons.mp hq2 with heq2 | hmem2
    · exact minByPriority_le s rest q.2 (Or.inl heq2)
    · exact minByPriority_le s rest q.2 (Or.inr hmem2)

/-- C1: `select_security_scheme` follows the specified algorithm: `None` for an
empty schemes map, for unreferenced schemes, or for referenced schemes that are
neither supported nor unsupported; `UnsupportedSecuritySchemeError` (carrying
the unsupported names) exactly when at least one referenced scheme is
unsupported (oauth2/openIdConnect) and none is supported; otherwise the
supported referenced scheme with the lowest priority number, where bearer=1,
basic=2, apiKey header=3, query=4, cookie=5, mutualTLS=6.  Being a pure
function of its two arguments, it is deterministic for identical inputs.
Includes the three priority examples: {bearer, basic} selects bearer,
{header, query} selects header, {cookie, mutualTLS} selects cookie. -/
theorem select_security_scheme_algorithm :
    (∀ gs, selectSecurityScheme [] gs = .ok none) ∧
    (∀ schemes gs, (∀ p ∈ schemes, p.1 ∉ gs) →
      selectSecurityScheme schemes gs = .ok none) ∧
    (∀ schemes gs,
      (∀ p ∈ schemes, p.1 ∈ gs →
        isSupportedScheme p.2 = false ∧ isUnsupportedScheme p.2 = false) →
      selectSecurityScheme schemes gs = .ok none) ∧
    (∀ schemes gs l, selectSecurityScheme schemes gs = .error l ↔
      ((∃ p ∈ schemes, p.1 ∈ gs ∧ isUnsupportedScheme p.2 = true) ∧
        (∀ p ∈ schemes, p.1 ∈ gs → isSupportedScheme p.2 = false) ∧
        l = unsupportedSchemeNames schemes gs)) ∧
    (∀ schemes gs, (∃ p ∈ schemes, p.1 ∈ gs ∧ isSupportedScheme p.2 = true) →
      ∃ s, selectSecurityScheme schemes gs = .ok (some s) ∧
        (∃ p ∈ schemes, p.1 ∈ gs ∧ p.2 = s) ∧ isSupportedScheme s = true ∧
        ∀ q ∈ schemes, q.1 ∈ gs → isSupportedScheme q.2 = true →
          getSchemePriority s ≤ getSchemePriority q.2) ∧
    (∀ s : SecurityScheme,
      (s.type = "http" → s.scheme = some "bearer" → getSchemePriority s = 1) ∧
      (s.type = "http" → s.scheme = some "basic" → getSchemePriority s = 2) ∧
      (s.type = "apiKey" → s.location = some "header" → getSchemePriority s = 3) ∧
      (s.type = "apiKey" → s.location = some "query" → getSchemePriority s = 4) ∧
      (s.type = "apiKey" → s.location = some "cookie" → getSchemePriority s = 5) ∧
      (s.type = "mutualTLS" → getSchemePriority s = 6)) ∧
    (selectSecurityScheme
        [("bearerAuth", ⟨"bearerAuth", "http", none, none, some "bearer", none⟩),
         ("basicAuth", ⟨"basicAuth", "http", none, none, some "basic", none⟩)]
        ["bearerAuth", "basicAuth"] =
      .ok (some ⟨"bearerAuth", "http", none, none, some "bearer", none⟩)) ∧
    (selectSecurityScheme
        [("apiKeyHeader", ⟨"apiKeyHeader", "apiKey", some "X-API-Key", some "header", none, none⟩),
         ("apiKeyQuery", ⟨"apiKeyQuery", "apiKey", some "api_key", some "query", none, none⟩)]
        ["apiKeyHeader", "apiKeyQuery"] =
      .ok (some ⟨"apiKeyHeader", "apiKey", some "X-API-Key", some "header", none, none⟩)) ∧
    (selectSecurityScheme
        [("apiKeyCookie", ⟨"apiKeyCookie", "apiKey", some "session", some "cookie", none, none⟩),
         ("mtls", ⟨"mtls", "mutualTLS", none, none, none, none⟩)]
        ["apiKeyCookie", "mtls"] =
      .ok (some ⟨"apiKeyCookie", "apiKey", some "session", some "cookie", none, none⟩)) := by
  refine ⟨fun gs => rfl, selectSecurityScheme_none_of_unreferenced,
    selectSecurityScheme_none_of_neither, selectSecurityScheme_error_iff,
    selectSecurityScheme_min_of_supported, ?_, by rfl, by rfl, by rfl⟩
  intro s
  refine ⟨?_, ?_, ?_, ?_, ?_, ?_⟩ <;>
    first
      | (intro h1 h2; simp [getSchemePriority, h1, h2])
      | (intro h1; simp [getSchemePriority, h1])

/-- C1 witness: instantiating the unsupported-error branch at a concrete
oauth2-only input, and the minimum-priority branch at a bearer+basic input. -/
theorem select_security_scheme_algorithm_witness :
    selectSecurityScheme [("oauth", ⟨"oauth", "oauth2", none, none, none, none⟩)] ["oauth"] =
      .error ["oauth"] :=
  ((select_security_scheme_algorithm.2.2.2.1
      [("oauth", ⟨"oauth", "oauth2", none, none, none, none⟩)] ["oauth"] ["oauth"]).mpr
    ⟨⟨("oauth", ⟨"oauth", "oauth2", none, none, none, none⟩), by decide, by decide, by decide⟩,
      by decide, by decide⟩)

theorem buildVariableValues_ok (cfgVars : List (String × String)) :
    ∀ specVars : List (String × VarSpec),
      (∀ e ∈ specVars, (resolvedVariable cfgVars e).isSome) →
      buildVariableValues cfgVars specVars =
        .ok (specVars.map (fun e => (e.1, (resolvedVariable cfgVars e).getD ""))) := by
  intro specVars
  induction specVars with
  | nil => intro _; rfl
  | cons e rest ih =>
    intro h
    obtain ⟨n, vs⟩ := e
    have hhead := h (n, vs) (List.mem_cons_self _ _)
    have htail := ih (fun f hf => h f (List.mem_cons_of_mem _ hf))
    simp only [buildVariableValues]
    cases hl : List.lookup n cfgVars with
    | some v =>
      rw [htail]
      simp only [List.map_cons, Except.map, resolvedVariable]
      rw [hl]
      rfl
    | none =>
      cases hd : vs.default with
      | some d =>
        rw [htail]
        simp only [List.map_cons, Except.map, resolvedVariable]
        rw [hl]
        simp [hd, Option.orElse]
      | none =>
        exfalso
        rw [resolvedVariable] at hhead
        rw [hl, hd] at hhead
        simp [Option.orElse] at hhead

theorem buildVariableValues_err (cfgVars : List (String × String)) :
    ∀ specVars : List (String × VarSpec),
      (∃ e ∈ specVars, resolvedVariable cfgVars e = none) →
      ∃ n vs, (n, vs) ∈ specVars ∧ List.lookup n cfgVars = none ∧ vs.default = none ∧
        buildVariableValues cfgVars specVars = .error (.missingVariable n) := by
  intro specVars
  induction specVars with
  | nil => rintro ⟨e, he, _⟩; cases he
  | cons e rest ih =>
    rintro ⟨f, hf, hres⟩
    obtain ⟨n, vs⟩ := e
    cases hl : List.lookup n cfgVars with
    | some v =>
      have hftail : f ∈ rest := by
        rcases List.mem_cons.mp hf with heq | ht
        · exfalso
          rw [heq, resolvedVariable] at hres
          rw [hl] at hres
          simp [Option.orElse] at hres
        · exact ht
      obtain ⟨n', vs', hmem, h1, h2, herr⟩ := ih ⟨f, hftail, hres⟩
      refine ⟨n', vs', List.mem_cons_of_mem _ hmem, h1, h2, ?_⟩
      simp only [buildVariableValues]
      rw [hl, herr]
      rfl
    | none =>
      cases hd : vs.default with
      | some d =>
        have hftail : f ∈ rest := by
          rcases List.mem_cons.mp hf with heq | ht
          · exfalso
            rw [heq, resolvedVariable] at hres
            rw [hl, hd] at hres
            simp [Option.orElse] at hres
          · exact ht
        obtain ⟨n', vs', hmem, h1, h2, herr⟩ := ih ⟨f, hftail, hres⟩
        refine ⟨n', vs', List.mem_cons_of_mem _ hmem, h1, h2, ?_⟩
        simp only [buildVariableValues]
        rw [hl, hd, herr]
        rfl
      | none =>
        refine ⟨n, vs, List.mem_cons_self _ _, hl, hd, ?_⟩
        simp only [buildVariableValues]
        rw [hl, hd]

theorem validateConfigVariables_ok (cfgVars : List (String × String))
    (specVars : List (String × VarSpec))
    (h : ∀ v ∈ cfgVars.map Prod.fst, v ∈ specVars.map Prod.fst) :
    validateConfigVariables cfgVars specVars = .ok () := by
  unfold validateConfigVariables
  rw [List.find?_eq_none.mpr]
  intro v hv
  simpa using h v hv

theorem validateConfigVariables_err (cfgVars : List (String × String))
    (specVars : List (String × VarSpec))
    (h : ∃ v ∈ cfgVars.map Prod.fst, v ∉ specVars.map Prod.fst) :
    ∃ v, v ∈ cfgVars.map Prod.fst ∧ v ∉ specVars.map Prod.fst ∧
      validateConfigVariables cfgVars specVars =
        .error (.unknownVariable v (specVars.map Prod.fst)) := by
  obtain ⟨v0, hv0mem, hv0⟩ := h
  have hsome : (List.find? (fun v => !((specVars.map Prod.fst).contains v))
      (cfgVars.map Prod.fst)).isSome := by
    rw [List.find?_isSome]
    exact ⟨v0, hv0mem, by simpa using hv0⟩
  obtain ⟨v, hv⟩ := Option.isSome_iff_exists.mp hsome
  refine ⟨v, List.mem_of_find?_eq_some hv, ?_, ?_⟩
  · have := List.find?_some hv
    simpa using this
  · unfold validateConfigVariables
    rw [hv]

/-- C2: `_resolve_server_url` follows the specified algorithm: a truthy config
URL override is returned unchanged regardless of the spec; with no spec
variables the base URL is returned unless the config supplies variables, which
raises `UnknownServerVariableError` with an empty available list; with spec
variables, a config variable not declared in the spec raises
`UnknownServerVariableError` listing the spec's variable names; each declared
variable resolves to the config override, else the spec default, else
`MissingServerVariableError` naming it; on success each `{name}` token is
literally replaced in the base URL. -/
theorem resolve_server_url_algorithm :
    (∀ server spec u, serverUrlOverride server = some u →
      resolveServerUrl server spec = .ok u) ∧
    (∀ server spec, serverUrlOverride server = none → spec.vars = [] →
      configVariables server = [] → resolveServerUrl server spec = .ok spec.url) ∧
    (∀ server spec n v rest, serverUrlOverride server = none → spec.vars = [] →
      configVariables server = (n, v) :: rest →
      resolveServerUrl server spec = .error (.unknownVariable n [])) ∧
    (∀ server spec, serverUrlOverride server = none → spec.vars ≠ [] →
      (∃ v ∈ (configVariables server).map Prod.fst, v ∉ spec.vars.map Prod.fst) →
      ∃ v, v ∈ (configVariables server).map Prod.fst ∧ v ∉ spec.vars.map Prod.fst ∧
        resolveServerUrl server spec =
          .error (.unknownVariable v (spec.vars.map Prod.fst))) ∧
    (∀ server spec, serverUrlOverride server = none → spec.vars ≠ [] →
      (∀ v ∈ (configVariables server).map Prod.fst, v ∈ spec.vars.map Prod.fst) →
      (∃ e ∈ spec.vars, resolvedVariable (configVariables server) e = none) →
      ∃ n vs, (n, vs) ∈ spec.vars ∧ List.lookup n (configVariables server) = none ∧
        vs.default = none ∧
        resolveServerUrl server spec = .error (.missingVariable n)) ∧
    (∀ server spec, serverUrlOverride server = none → spec.vars ≠ [] →
      (∀ v ∈ (configVariables server).map Prod.fst, v ∈ spec.vars.map Prod.fst) →
      (∀ e ∈ spec.vars, (resolvedVariable (configVariables server) e).isSome) →
      resolveServerUrl server spec = .ok
        ((spec.vars.map
            (fun e => (e.1, (resolvedVariable (configVariables server) e).getD ""))).foldl
          (fun u p => pyReplace u ("\x7b" ++ p.1 ++ "\x7d") p.2) spec.url)) := by
  refine ⟨?_, ?_, ?_, ?_, ?_, ?_⟩
  · intro server spec u h
    simp [resolveServerUrl, h]
  · intro server spec hov hvars hcfg
    simp [resolveServerUrl, hov, hvars, hcfg]
  · intro server spec n v rest hov hvars hcfg
    simp [resolveServerUrl, hov, hvars, hcfg]
  · intro server spec hov hne hex
    obtain ⟨v, h1, h2, herr⟩ :=
      validateConfigVariables_err (configVariables server) spec.vars hex
    refine ⟨v, h1, h2, ?_⟩
    unfold resolveServerUrl
    rw [hov, if_neg (by simp [List.isEmpty_iff, hne]), herr]
    rfl
  · intro server spec hov hne hall hex
    obtain ⟨n, vs, hmem, h1, h2, herr⟩ :=
      buildVariableValues_err (configVariables server) spec.vars hex
    refine ⟨n, vs, hmem, h1, h2, ?_⟩
    unfold resolveServerUrl
    rw [hov, if_neg (by simp [List.isEmpty_iff, hne]),
      validateConfigVariables_ok (configVariables server) spec.vars hall, herr]
    rfl
  · intro server spec hov hne hall hsome
    unfold resolveServerUrl
    rw [hov, if_neg (by simp [List.isEmpty_iff, hne]),
      validateConfigVariables_ok (configVariables server) spec.vars hall,
      buildVariableValues_ok (configVariables server) spec.vars hsome]
    rfl

/-- C2 witness: the spec's `{subdomain}` example — a server spec with one
variable defaulting to `api` and no config override resolves to the URL with
`api` substituted. -/
theorem resolve_server_url_algorithm_witness :
    resolveServerUrl none
        ⟨"https://{subdomain}.example.com", [("subdomain", ⟨some "api"⟩)]⟩ =
      .ok "https://api.example.com" := by
  have h := resolve_server_url_algorithm.2.2.2.2.2 none
    ⟨"https://{subdomain}.example.com", [("subdomain", ⟨some "api"⟩)]⟩
    (by rfl) (by decide) (by simp [configVariables]) (by decide)
  rw [h]
  decide

theorem tokenizeGlob_lit (c : Char) (h : c ≠ '*') (rest : List Char) :
    tokenizeGlob (c :: rest) = .lit c :: tokenizeGlob rest := by
  rw [tokenizeGlob.eq_def]
  simp [h]

theorem tokenizeGlob_append_lits (p : List Char) (h : ∀ c ∈ p, c ≠ '*')
    (rest : List Char) :
    tokenizeGlob (p ++ rest) = p.map GlobTok.lit ++ tokenizeGlob rest := by
  induction p with
  | nil => rfl
  | cons c cs ih =>
    rw [List.cons_append, tokenizeGlob_lit c (h c (List.mem_cons_self _ _))]
    rw [ih (fun d hd => h d (List.mem_cons_of_mem _ hd))]
    rfl

theorem reTokMatch_lits (p : List Char) (ts : List GlobTok) :
    ∀ s : List Char, reTokMatch (p.map GlobTok.lit ++ ts) s = true ↔
      ∃ r, s = p ++ r ∧ reTokMatch ts r = true := by
  induction p with
  | nil =>
    intro s
    constructor
    · intro h; exact ⟨s, rfl, h⟩
    · rintro ⟨r, rfl, h⟩; exact h
  | cons c cs ih =>
    intro s
    cases s with
    | nil =>
      simp only [List.map_cons, List.cons_append, reTokMatch]
      constructor
      · intro h; cases h
      · rintro ⟨r, hr, _⟩; cases hr
    | cons d s' =>
      simp only [List.map_cons, List.cons_append, reTokMatch, Bool.and_eq_true, beq_iff_eq,
        List.append_eq]
      rw [ih s']
      constructor
      · rintro ⟨rfl, r, rfl, h⟩
        exact ⟨r, rfl, h⟩
      · rintro ⟨r, hr, h⟩
        injection hr with h1 h2
        exact ⟨h1.symm, r, h2, h⟩

theorem reDollar_iff (s : List Char) (hnl : '\n' ∉ s) :
    reDollar s = true ↔ s = [] := by
  cases s with
  | nil => simp [reDollar]
  | cons e t =>
    simp only [reDollar, Bool.or_eq_true, beq_iff_eq]
    constructor
    · intro h
      rcases h with h | h
      · cases h
      · exfalso
        apply hnl
        rw [h]
        exact List.mem_cons_self '\n' []
    · intro h
      cases h

theorem reTokMatch_star (s : List Char) (hnl : '\n' ∉ s) :
    (reTokMatch [.star] s = true ↔ s ≠ [] ∧ '/' ∉ s) := by
  induction s with
  | nil => simp [reTokMatch, reDollar]
  | cons d s' ih =>
    have hnl' : '\n' ∉ s' := fun h => hnl (List.mem_cons_of_mem d h)
    have hih := ih hnl'
    constructor
    · intro h
      simp only [reTokMatch, Bool.and_eq_true, Bool.or_eq_true, bne_iff_ne, Ne] at h
      obtain ⟨hdne, hrest⟩ := h
      refine ⟨by simp, ?_⟩
      intro hmem
      rcases List.mem_cons.mp hmem with heq | hmem'
      · exact hdne heq.symm
      · rcases hrest with hnil | hstar
        · rw [reDollar_iff s' hnl'] at hnil
          rw [hnil] at hmem'
          exact absurd hmem' (List.not_mem_nil '/')
        · exact (hih.mp hstar).2 hmem'
    · rintro ⟨-, hnotmem⟩
      have hdne : d ≠ '/' := fun h => hnotmem (by rw [h]; exact List.mem_cons_self _ _)
      have hnot' : '/' ∉ s' := fun h => hnotmem (List.mem_cons_of_mem _ h)
      simp only [reTokMatch, Bool.and_eq_true, Bool.or_eq_true, bne_iff_ne, Ne]
      refine ⟨hdne, ?_⟩
      by_cases hempty : s' = []
      · exact Or.inl ((reDollar_iff s' hnl').mpr hempty)
      · exact Or.inr (hih.mpr ⟨hempty, hnot'⟩)

theorem reTokMatch_dstar (s : List Char) (hnl : '\n' ∉ s) :
    (reTokMatch [.dstar] s = true ↔ s ≠ []) := by
  induction s with
  | nil => simp [reTokMatch, reDollar]
  | cons d s' ih =>
    have hd : d ≠ '\n' := fun h => hnl (h ▸ List.mem_cons_self d s')
    have hnl' : '\n' ∉ s' := fun h => hnl (List.mem_cons_of_mem d h)
    have hih := ih hnl'
    constructor
    · intro _
      simp
    · intro _
      simp only [reTokMatch, Bool.and_eq_true, Bool.or_eq_true, bne_iff_ne, Ne]
      refine ⟨hd, ?_⟩
      by_cases hempty : s' = []
      · exact Or.inl ((reDollar_iff s' hnl').mpr hempty)
      · exact Or.inr (hih.mpr hempty)

/-- C3: `_glob_match` semantics.  A pattern without `*` matches only by exact
string equality; `pat ++ "*"` matches exactly the extensions of `pat` by one
non-empty `/`-free segment; `pat ++ "**"` matches exactly the non-empty
extensions (any characters, `/` included); conversion processes `**` before
`*` (two adjacent stars tokenize to one `dstar`, never two `star`s), so
`/users/**` matches `/users/123/orders` while `/users/*` does not, and
`/users` does not match `/users/123`.  Paths are newline-free (a Python regex
`$`/`.` would treat an embedded newline specially; OpenAPI paths have none). -/
theorem glob_match_semantics :
    (∀ pat path : List Char, pat.contains '*' = false →
      (globMatch pat path = true ↔ pat = path)) ∧
    (∀ p path : List Char, (∀ c ∈ p, c ≠ '*') → '\n' ∉ path →
      (globMatch (p ++ ['*']) path = true ↔
        ∃ seg, path = p ++ seg ∧ seg ≠ [] ∧ '/' ∉ seg)) ∧
    (∀ p path : List Char, (∀ c ∈ p, c ≠ '*') → '\n' ∉ path →
      (globMatch (p ++ ['*', '*']) path = true ↔
        ∃ seg, path = p ++ seg ∧ seg ≠ [])) ∧
    (tokenizeGlob ['*', '*'] = [.dstar] ∧ tokenizeGlob ['*'] = [.star] ∧
      ∀ r, tokenizeGlob ('*' :: '*' :: r) = .dstar :: tokenizeGlob r) ∧
    (globMatchS "/users" "/users/123" = false ∧
      globMatchS "/users/*" "/users/123" = true ∧
      globMatchS "/users/*" "/users/123/orders" = false ∧
      globMatchS "/users/**" "/users/123/orders" = true) := by
  refine ⟨?_, ?_, ?_, ⟨rfl, rfl, fun r => rfl⟩, by decide, by decide, by decide, by decide⟩
  · intro pat path h
    unfold globMatch
    rw [h]
    simp
  · intro p path h hnl
    have hcon : (p ++ ['*']).contains '*' = true := by simp
    unfold globMatch
    rw [hcon, if_pos rfl, tokenizeGlob_append_lits p h ['*']]
    have htok : tokenizeGlob ['*'] = [GlobTok.star] := rfl
    rw [htok, reTokMatch_lits p [GlobTok.star] path]
    constructor
    · rintro ⟨r, rfl, hm⟩
      have hnlr : '\n' ∉ r := fun hr => hnl (List.mem_append_right p hr)
      obtain ⟨hne, hns⟩ := (reTokMatch_star r hnlr).mp hm
      exact ⟨r, rfl, hne, hns⟩
    · rintro ⟨seg, rfl, hne, hns⟩
      have hnlr : '\n' ∉ seg := fun hr => hnl (List.mem_append_right p hr)
      exact ⟨seg, rfl, (reTokMatch_star seg hnlr).mpr ⟨hne, hns⟩⟩
  · intro p path h hnl
    have hcon : (p ++ ['*', '*']).contains '*' = true := by simp
    unfold globMatch
    rw [hcon, if_pos rfl, tokenizeGlob_append_lits p h ['*', '*']]
    have htok : tokenizeGlob ['*', '*'] = [GlobTok.dstar] := rfl
    rw [htok, reTokMatch_lits p [GlobTok.dstar] path]
    constructor
    · rintro ⟨r, rfl, hm⟩
      have hnlr : '\n' ∉ r := fun hr => hnl (List.mem_append_right p hr)
      exact ⟨r, rfl, (reTokMatch_dstar r hnlr).mp hm⟩
    · rintro ⟨seg, rfl, hne⟩
      have hnlr : '\n' ∉ seg := fun hr => hnl (List.mem_append_right p hr)
      exact ⟨seg, rfl, (reTokMatch_dstar seg hnlr).mpr hne⟩

/-- C3 witness: the single-segment clause instantiated at pattern `/users/*`
and path `/users/123` — the hypotheses (no `*` in the prefix, newline-free
path) hold and the segment `123` is produced. -/
theorem glob_match_semantics_witness :
    globMatch ("/users/".data ++ ['*']) "/users/123".data = true :=
  (glob_match_semantics.2.1 "/users/".data "/users/123".data
      (by decide) (by decide)).mpr ⟨"123".data, by decide, by decide, by decide⟩

theorem matchPath_iff (f : FilterState) (path method : String) :
    matchPath f path method = true ↔
      ∃ e ∈ f.paths, globMatchS e.path path = true ∧
        (methodsFalsy e.methods = true ∨ method ∈ e.methods.getD []) := by
  simp only [matchPath, List.any_eq_true, Bool.and_eq_true, Bool.or_eq_true]
  constructor
  · rintro ⟨e, he, hg, hm⟩
    refine ⟨e, he, hg, ?_⟩
    rcases hm with hm | hm
    · exact Or.inl hm
    · exact Or.inr (by simpa using hm)
  · rintro ⟨e, he, hg, hm⟩
    refine ⟨e, he, hg, ?_⟩
    rcases hm with hm | hm
    · exact Or.inl hm
    · exact Or.inr (by simpa using hm)

theorem matchOperationId_iff (f : FilterState) (oid : Option String) :
    matchOperationId f oid = true ↔
      ∃ s, oid = some s ∧ s ≠ "" ∧ s ∈ f.operationIds := by
  cases oid with
  | none =>
    simp [matchOperationId]
  | some s =>
    by_cases hs : s = ""
    · subst hs
      simp [matchOperationId]
    · simp only [matchOperationId, if_neg hs]
      constructor
      · intro h
        exact ⟨s, rfl, hs, by simpa using h⟩
      · rintro ⟨t, ht, -, hmem⟩
        injection ht with ht
        subst ht
        simpa using hmem

theorem matchTags_iff (f : FilterState) (etags : Option (List String)) :
    matchTags f etags = true ↔
      ∃ ts, etags = some ts ∧ ∃ t ∈ ts, t ∈ f.tags := by
  cases etags with
  | none => simp [matchTags]
  | some l =>
    by_cases hl : l.isEmpty = true
    · rw [List.isEmpty_iff] at hl
      subst hl
      simp [matchTags]
    · have heq : l.isEmpty = false := by
        rwa [Bool.not_eq_true] at hl
      simp only [matchTags, heq, Bool.false_eq_true, if_false, List.any_eq_true]
      constructor
      · rintro ⟨t, ht, hmem⟩
        exact ⟨l, rfl, t, ht, by simpa using hmem⟩
      · rintro ⟨ts, hts, t, ht, hmem⟩
        injection hts with hts
        subst hts
        exact ⟨t, ht, by simpa using hmem⟩

/-- C4 counterexample: an endpoint whose `operationId` is the empty string
`""`, with `""` listed verbatim in the filter's `operationIds` (a filter state
`_load` produces from `{operationIds: [""]}`), is NOT included even though the
claim's operationId criterion (verbatim membership) holds and no other
criterion is configured — `_match_operation_id` short-circuits on the falsy
empty string. -/
theorem is_included_empty_operation_id_counterexample :
    loadEndpointFilter true (some (.dict [("operationIds", .list [.str ""])])) =
      .ok ⟨[], [""], [], true⟩ ∧
    "" ∈ (⟨[], [""], [], true⟩ : FilterState).operationIds ∧
    matchPath ⟨[], [""], [], true⟩ "/x" "get" = false ∧
    matchTags ⟨[], [""], [], true⟩ none = false ∧
    isIncluded ⟨[], [""], [], true⟩ "/x" "get" ⟨some "", none⟩ = false := by
  refine ⟨rfl, ?_, rfl, rfl, rfl⟩
  exact List.mem_singleton.mpr rfl

/-- C4 (amended): with no filters loaded `is_included` is unconditionally
true; with filters loaded it is true iff one of the three OR-criteria holds,
where the operationId criterion additionally requires the endpoint's
operationId to be non-empty (the code treats a falsy `""` as absent); an
endpoint matching only the tag criterion is included. -/
theorem is_included_or_semantics :
    (∀ (f : FilterState) path method details, f.hasFilters = false →
      isIncluded f path method details = true) ∧
    (∀ (f : FilterState) path method details, f.hasFilters = true →
      (isIncluded f path method details = true ↔
        ((∃ e ∈ f.paths, globMatchS e.path path = true ∧
            (methodsFalsy e.methods = true ∨ pyLower method ∈ e.methods.getD [])) ∨
          (∃ s, details.operationId = some s ∧ s ≠ "" ∧ s ∈ f.operationIds) ∨
          (∃ ts, details.tags = some ts ∧ ∃ t ∈ ts, t ∈ f.tags)))) ∧
    (isIncluded ⟨[⟨"/admin/**", none⟩], ["adminOp"], ["reports"], true⟩
        "/users/1" "get" ⟨some "listUsers", some ["reports"]⟩ = true) := by
  refine ⟨?_, ?_, by decide⟩
  · intro f path method details h
    simp [isIncluded, h]
  · intro f path method details h
    simp only [isIncluded, h, Bool.not_true, Bool.false_eq_true, if_false,
      Bool.or_eq_true]
    rw [matchPath_iff, matchOperationId_iff, matchTags_iff]
    exact or_assoc

theorem mapM_asPathEntry_nil_iff (pitems : List PyValue) (entries : List PathEntry)
    (h : pitems.mapM asPathEntry = some entries) : (entries = [] ↔ pitems = []) := by
  cases pitems with
  | nil =>
    simp only [List.mapM_nil] at h
    injection h with h
    subst h
    simp
  | cons x xs =>
    constructor
    · intro hnil
      subst hnil
      exfalso
      rw [List.mapM_cons] at h
      cases hx : asPathEntry x with
      | none => rw [hx] at h; cases h
      | some y =>
        rw [hx] at h
        cases hxs : xs.mapM asPathEntry with
        | none => rw [hxs] at h; cases h
        | some ys =>
          rw [hxs] at h
          cases h
    · intro hnil
      cases hnil

/-- C8 counterexample: a filter file whose YAML parses to the non-empty,
non-mapping value `"hello"` (file content `hello`).  The file exists, the YAML
parses, the value is truthy and so not the empty-file case, yet loading is
fatal — `data.get("paths", [])` raises an unhandled `AttributeError`
(`typeError` in the embedding), which is none of the three designated
errors. -/
theorem load_filter_nonmapping_counterexample :
    pyTruthy (.str "hello") = true ∧
    loadEndpointFilter true (some (.str "hello")) = .error .typeError ∧
    FilterError.typeError ≠ .fileNotFound ∧
    FilterError.typeError ≠ .invalidYAML ∧
    FilterError.typeError ≠ .emptyFile :=
  ⟨rfl, rfl, by decide, by decide, by decide⟩

/-- C8 (amended): loading an endpoint-filter file fails with the designated
errors in the three enumerated cases — missing file (`fileNotFound`),
unparseable YAML (`invalidYAML`), parse result empty/falsy or a mapping with
all three sections empty (`emptyFile`) — and those are the only failures for
files parsing to a well-typed mapping; a file parsing to a non-mapping value
(or ill-typed sections) is also fatal but with an unhandled attribute/type
error instead of the empty-file error.  Loading never succeeds without at
least one populated criterion, so an empty filter file cannot silently pass
every endpoint. -/
theorem load_endpoint_filter_fatal_cases :
    (∀ parsed, loadEndpointFilter false parsed = .error .fileNotFound) ∧
    (loadEndpointFilter true Option.none = .error .invalidYAML) ∧
    (∀ data, pyTruthy data = false →
      loadEndpointFilter true (some data) = .error .emptyFile) ∧
    (∀ m pitems ops tags entries,
      pyTruthy (PyValue.dict m) = true →
      sectionValue m "paths" = .list pitems →
      asStringList (sectionValue m "operationIds") = some ops →
      asStringList (sectionValue m "tags") = some tags →
      pitems.mapM asPathEntry = some entries →
      loadEndpointFilter true (some (.dict m)) =
        (if pitems.isEmpty && ops.isEmpty && tags.isEmpty then .error .emptyFile
         else .ok ⟨entries, ops, tags, true⟩)) ∧
    (∀ fe parsed st, loadEndpointFilter fe parsed = .ok st →
      st.hasFilters = true ∧
        (st.paths ≠ [] ∨ st.operationIds ≠ [] ∨ st.tags ≠ [])) := by
  have hsections : ∀ (m : List (String × PyValue)) (st : FilterState),
      loadFilterSections m = .ok st →
      st.hasFilters = true ∧
        (st.paths ≠ [] ∨ st.operationIds ≠ [] ∨ st.tags ≠ []) := by
    intro m st h
    unfold loadFilterSections at h
    split at h
    · rename_i pitems ops tags heq1 heq2 heq3
      split at h
      · rename_i entries hentries
        split at h
        · rename_i hcond
          injection h with h
          subst h
          refine ⟨rfl, ?_⟩
          rw [Bool.or_eq_true, Bool.or_eq_true] at hcond
          rcases hcond with (hc | hc) | hc
          · left
            rw [Bool.not_eq_true', List.isEmpty_eq_false] at hc
            intro hnil
            exact hc ((mapM_asPathEntry_nil_iff _ _ hentries).mp hnil)
          · right; left
            rw [Bool.not_eq_true', List.isEmpty_eq_false] at hc
            exact hc
          · right; right
            rw [Bool.not_eq_true', List.isEmpty_eq_false] at hc
            exact hc
        · cases h
      · cases h
    · cases h
  refine ⟨fun parsed => rfl, rfl, ?_, ?_, ?_⟩
  · intro data h
    simp [loadEndpointFilter, h]
  · intro m pitems ops tags entries htr hpaths hops htags hentries
    have hload : loadEndpointFilter true (some (.dict m)) = loadFilterSections m := by
      simp [loadEndpointFilter, htr]
    rw [hload]
    unfold loadFilterSections
    rw [hpaths, hops, htags]
    simp only [hentries]
    cases h1 : pitems.isEmpty <;> cases h2 : ops.isEmpty <;> cases h3 : tags.isEmpty <;>
      simp [h1, h2, h3]
  · intro fe parsed st h
    cases fe with
    | false => simp [loadEndpointFilter] at h
    | true =>
      cases parsed with
      | none => simp [loadEndpointFilter] at h
      | some data =>
        by_cases htr : pyTruthy data = true
        · cases data with
          | dict m =>
            have hload : loadEndpointFilter true (some (.dict m)) = loadFilterSections m := by
              simp [loadEndpointFilter, htr]
            rw [hload] at h
            exact hsections m st h
          | none => exact absurd htr (by simp [pyTruthy])
          | bool b =>
            rw [show loadEndpointFilter true (some (.bool b)) =
              (if !pyTruthy (.bool b) then .error .emptyFile else .error .typeError) from rfl,
              htr] at h
            simp at h
          | int n =>
            rw [show loadEndpointFilter true (some (.int n)) =
              (if !pyTruthy (.int n) then .error .emptyFile else .error .typeError) from rfl,
              htr] at h
            simp at h
          | str s =>
            rw [show loadEndpointFilter true (some (.str s)) =
              (if !pyTruthy (.str s) then .error .emptyFile else .error .typeError) from rfl,
              htr] at h
            simp at h
          | list l =>
            rw [show loadEndpointFilter true (some (.list l)) =
              (if !pyTruthy (.list l) then .error .emptyFile else .error .typeError) from rfl,
              htr] at h
            simp at h
        · have htr' : pyTruthy data = false := by rwa [Bool.not_eq_true] at htr
          have : loadEndpointFilter true (some data) = .error .emptyFile := by
            simp [loadEndpointFilter, htr']
          rw [this] at h
          cases h

/-- C9 counterexample: root-level auto-discovery (no config path given, cwd
`/work` is a directory, `/work/picofun.toml` does not exist) is FATAL — the
loader raises `ConfigFileNotFoundError` for the auto-discovered path, it does
not fall back to defaults.  `load_from_file` raises for every missing file
regardless of how the path was obtained. -/
theorem config_autodiscovery_missing_fatal_counterexample :
    configLoaderInit (α := Unit) Option.none "/work" (fun p => p == "/work")
        (fun _ => false) (fun _ => Option.none) =
      .error (.configFileNotFound "/work/picofun.toml") := rfl

/-- C9 (amended): resolving the config file distinguishes the discovery modes
only in how the path is computed (explicit path used as-is, directory or no
argument gets `picofun.toml` appended); a missing resolved file is fatal with
`ConfigFileNotFoundError` in BOTH modes, unparseable contents are fatal with
`InvalidConfigError`, and an existing parseable file loads. -/
theorem config_loader_missing_file_fatal :
    (∀ (α : Type) (given : Option String) cwd isDir isFile
        (parse : String → Option α),
      isFile (getConfigFile given cwd isDir) = false →
      configLoaderInit given cwd isDir isFile parse =
        .error (.configFileNotFound (getConfigFile given cwd isDir))) ∧
    (∀ cwd isDir, getConfigFile Option.none cwd isDir =
      if isDir cwd then osPathJoin cwd "picofun.toml" else cwd) ∧
    (∀ (p : String) cwd isDir, p ≠ "" → isDir p = false →
      getConfigFile (some p) cwd isDir = p) ∧
    (∀ (α : Type) (given : Option String) cwd isDir isFile
        (parse : String → Option α) (doc : α),
      isFile (getConfigFile given cwd isDir) = true →
      parse (getConfigFile given cwd isDir) = some doc →
      configLoaderInit given cwd isDir isFile parse = .ok doc) ∧
    (∀ (α : Type) (given : Option String) cwd isDir isFile
        (parse : String → Option α),
      isFile (getConfigFile given cwd isDir) = true →
      parse (getConfigFile given cwd isDir) = Option.none →
      configLoaderInit given cwd isDir isFile parse = .error .invalidConfig) := by
  refine ⟨?_, ?_, ?_, ?_, ?_⟩
  · intro α given cwd isDir isFile parse h
    simp [configLoaderInit, loadFromFile, h]
  · intro cwd isDir
    rfl
  · intro p cwd isDir hp hdir
    simp [getConfigFile, hp, hdir]
  · intro α given cwd isDir isFile parse doc hfile hparse
    simp [configLoaderInit, loadFromFile, hfile, hparse]
  · intro α given cwd isDir isFile parse hfile hparse
    simp [configLoaderInit, loadFromFile, hfile, hparse]

/-- C9 witness: the amended theorem's explicit-path clause at a concrete
missing file — `ConfigLoader("/etc/missing.toml")` is fatal. -/
theorem config_loader_missing_file_fatal_witness :
    configLoaderInit (α := Unit) (some "/etc/missing.toml") "/work"
        (fun _ => false) (fun _ => false) (fun _ => Option.none) =
      .error (.configFileNotFound "/etc/missing.toml") := by
  have h := config_loader_missing_file_fatal.1 Unit (some "/etc/missing.toml") "/work"
    (fun _ => false) (fun _ => false) (fun _ => Option.none) rfl
  simpa using h

/-- C7 counterexample: `subnet-zz` does not match the claim's
`subnet-<hex>` format (`z` is not a hex digit), yet `validate_subnets`
accepts it unchanged — the code checks only the 7-character prefix
`subnet-` (`subnet[:7] != "subnet-"`), never the hex suffix. -/
theorem validate_subnets_nonhex_counterexample :
    matchesSubnetHexFormat "subnet-zz" = false ∧
    validateSubnets (.list ["subnet-zz"]) = .ok ["subnet-zz"] :=
  ⟨by decide, by decide⟩

/-- C7 (amended): `validate_subnets` raises exactly when some normalized
entry does not start with the literal prefix `subnet-` (the hex suffix is not
checked); when every entry starts with `subnet-` — in particular whenever
every entry matches the claim's full `subnet-<hex>` format — the entries pass
through unchanged after list-normalization (comma-split and whitespace-trim
for string input, identity for list input). -/
theorem validate_subnets_prefix_check :
    (∀ v, (∀ e ∈ normalizeSubnets v, pyTake e 7 = "subnet-") →
      validateSubnets v = .ok (normalizeSubnets v)) ∧
    (∀ v, (∃ e ∈ normalizeSubnets v, pyTake e 7 ≠ "subnet-") →
      validateSubnets v = .error "Subnets must be in the format 'subnet-[hex]'") ∧
    (∀ v, (∀ e ∈ normalizeSubnets v, matchesSubnetHexFormat e = true) →
      validateSubnets v = .ok (normalizeSubnets v)) ∧
    (validateSubnets (.str " subnet-12345678, subnet-87654321 ") =
      .ok ["subnet-12345678", "subnet-87654321"]) := by
  have hok : ∀ v, (∀ e ∈ normalizeSubnets v, pyTake e 7 = "subnet-") →
      validateSubnets v = .ok (normalizeSubnets v) := by
    intro v h
    have hlen : ¬ ((normalizeSubnets v).filter
        (fun sn => pyTake sn 7 ≠ "subnet-")).length ≠ 0 := by
      simp only [ne_eq, Decidable.not_not]
      rw [List.length_eq_zero, List.filter_eq_nil_iff]
      intro e he
      simp [h e he]
    unfold validateSubnets
    rw [if_neg hlen]
  refine ⟨hok, ?_, ?_, by decide⟩
  · intro v h
    obtain ⟨e, he, hne⟩ := h
    have hlen : ((normalizeSubnets v).filter
        (fun sn => pyTake sn 7 ≠ "subnet-")).length ≠ 0 := by
      simp only [ne_eq]
      rw [List.length_eq_zero, List.filter_eq_nil_iff]
      push_neg
      exact ⟨e, he, by simpa using hne⟩
    unfold validateSubnets
    rw [if_pos hlen]
  · intro v h
    apply hok
    intro e he
    have := h e he
    rw [matchesSubnetHexFormat, Bool.and_eq_true, Bool.and_eq_true] at this
    exact eq_of_beq this.1.1

theorem lookup_cons_self (k : String) (v : PyValue) (l : List (String × PyValue)) :
    List.lookup k ((k, v) :: l) = some v := by
  simp [List.lookup]

theorem lookup_cons_ne (a k : String) (v : PyValue) (l : List (String × PyValue))
    (h : a ≠ k) :
    List.lookup a ((k, v) :: l) = List.lookup a l := by
  have hb : (a == k) = false := beq_eq_false_iff_ne.mpr h
  simp [List.lookup, hb]

theorem setField_cons_self (k : String) (v v' : PyValue) (rest : List (String × PyValue)) :
    setField ((k, v') :: rest) k v = (k, v) :: rest := by
  simp [setField]

theorem setField_cons_ne (k k' : String) (v v' : PyValue) (rest : List (String × PyValue))
    (h : k' ≠ k) :
    setField ((k', v') :: rest) k v = (k', v') :: setField rest k v := by
  simp [setField, h]

theorem lookup_setField_self (c : List (String × PyValue)) (k : String) (v : PyValue) :
    List.lookup k (setField c k v) = some v := by
  induction c with
  | nil => simp [setField, List.lookup]
  | cons kv rest ih =>
    obtain ⟨k', v'⟩ := kv
    by_cases h : k' = k
    · subst h
      rw [setField_cons_self _ v v' rest]
      exact lookup_cons_self _ v rest
    · rw [setField_cons_ne k k' v v' rest h]
      rw [lookup_cons_ne k k' v' (setField rest k v) (fun he => h he.symm)]
      exact ih

theorem lookup_setField_ne (c : List (String × PyValue)) (k k' : String) (v : PyValue)
    (h : k' ≠ k) :
    List.lookup k' (setField c k v) = List.lookup k' c := by
  induction c with
  | nil =>
    simp only [setField]
    rw [lookup_cons_ne k' k v [] h]
  | cons kv rest ih =>
    obtain ⟨k0, v0⟩ := kv
    by_cases h0 : k0 = k
    · subst h0
      rw [setField_cons_self k0 v v0 rest]
      rw [lookup_cons_ne k' k0 v rest h, lookup_cons_ne k' k0 v0 rest h]
    · rw [setField_cons_ne k k0 v v0 rest h0]
      by_cases h1 : k' = k0
      · subst h1
        rw [lookup_cons_self k' v0 (setField rest k v), lookup_cons_self k' v0 rest]
      · rw [lookup_cons_ne k' k0 v0 (setField rest k v) h1,
          lookup_cons_ne k' k0 v0 rest h1]
        exact ih

theorem lookup_mergeLoop (transform : String → PyValue → PyValue) (k : String) :
    ∀ (kwargs : List (String × PyValue)) (c : List (String × PyValue)),
      (∀ kv ∈ kwargs, kv.1 = k → pyTruthy kv.2 = false) →
      List.lookup k (mergeLoop transform c kwargs) = List.lookup k c := by
  intro kwargs
  induction kwargs with
  | nil => intro c _; rfl
  | cons kv kws ih =>
    intro c h
    obtain ⟨k0, v0⟩ := kv
    have hstep : mergeLoop transform c ((k0, v0) :: kws) =
        mergeLoop transform
          (if pyTruthy v0 then setField c k0 (transform k0 v0) else c) kws := by
      simp [mergeLoop]
    rw [hstep]
    rw [ih _ (fun kv hkv hk => h kv (List.mem_cons_of_mem _ hkv) hk)]
    by_cases h0 : k0 = k
    · subst h0
      rw [h (k0, v0) (List.mem_cons_self _ _) rfl]
      simp
    · by_cases ht : pyTruthy v0
      · rw [if_pos ht, lookup_setField_ne c k0 k (transform k0 v0) (Ne.symm h0)]
      · rw [if_neg ht]

theorem lookup_eq_none_keys (k : String) :
    ∀ l : List (String × PyValue), List.lookup k l = none →
      ∀ kv ∈ l, kv.1 ≠ k := by
  intro l
  induction l with
  | nil => intro _ kv hkv; cases hkv
  | cons kv0 rest ih =>
    intro h kv hkv
    obtain ⟨k0, v0⟩ := kv0
    by_cases h0 : k = k0
    · subst h0
      rw [lookup_cons_self k v0 rest] at h
      cases h
    · rw [lookup_cons_ne k k0 v0 rest h0] at h
      rcases List.mem_cons.mp hkv with heq | hmem
      · subst heq
        simpa using fun he => h0 he.symm
      · exact ih h kv hmem

theorem nodup_mem_lookup (k : String) (w : PyValue) :
    ∀ l : List (String × PyValue), (l.map Prod.fst).Nodup →
      (k, w) ∈ l → List.lookup k l = some w := by
  intro l
  induction l with
  | nil => intro _ hmem; cases hmem
  | cons kv0 rest ih =>
    intro hnd hmem
    obtain ⟨k0, v0⟩ := kv0
    rw [List.map_cons, List.nodup_cons] at hnd
    rcases List.mem_cons.mp hmem with heq | hmem'
    · injection heq with h1 h2
      subst h1
      subst h2
      exact lookup_cons_self _ _ _
    · have hne : k ≠ k0 := by
        intro he
        subst he
        exact hnd.1 (List.mem_map.mpr ⟨(k, w), hmem', rfl⟩)
      rw [lookup_cons_ne k k0 v0 rest hne]
      exact ih hnd.2 hmem'

theorem mergeConfig_eq_loop (transform : String → PyValue → PyValue)
    (cfg kwargs : List (String × PyValue))
    (h : ∀ u, List.lookup "server_url" kwargs = some u → pyTruthy u = false) :
    mergeConfig transform cfg kwargs = mergeLoop transform cfg kwargs := by
  unfold mergeConfig
  cases hsu : List.lookup "server_url" kwargs with
  | none => rfl
  | some u =>
    have ht := h u hsu
    simp [ht]

theorem mergeConfig_eq_server (transform : String → PyValue → PyValue)
    (cfg kwargs : List (String × PyValue)) (u : PyValue)
    (hsu : List.lookup "server_url" kwargs = some u) (ht : pyTruthy u = true) :
    mergeConfig transform cfg kwargs =
      mergeLoop transform (setField cfg "server" (mkServerConfigUrl u))
        (kwargs.filter (fun kv => kv.1 ≠ "server_url")) := by
  unfold mergeConfig
  rw [hsu]
  simp [ht]

/-- C6: `Config.merge`'s falsy-skip and frame behaviour, for every
per-field validation transform: an override key with a falsy value leaves the
previously-set field unchanged, keys absent from the overrides leave their
fields unchanged, and the one exception is the full-URL `server_url`
override, which when truthy replaces the entire server configuration with
`ServerConfig(url=server_url)` without going through the general per-key
path. -/
theorem config_merge_falsy_skip :
    (∀ transform cfg kwargs (k : String) v,
      (kwargs.map Prod.fst).Nodup →
      List.lookup k kwargs = some v → pyTruthy v = false →
      (k ≠ "server" ∨
        ∀ u, List.lookup "server_url" kwargs = some u → pyTruthy u = false) →
      List.lookup k (mergeConfig transform cfg kwargs) = List.lookup k cfg) ∧
    (∀ transform cfg kwargs (k : String),
      List.lookup k kwargs = none →
      (k ≠ "server" ∨
        ∀ u, List.lookup "server_url" kwargs = some u → pyTruthy u = false) →
      List.lookup k (mergeConfig transform cfg kwargs) = List.lookup k cfg) ∧
    (∀ transform cfg kwargs v,
      List.lookup "server_url" kwargs = some v → pyTruthy v = true →
      List.lookup "server" kwargs = none →
      List.lookup "server" (mergeConfig transform cfg kwargs) =
        some (mkServerConfigUrl v)) := by
  refine ⟨?_, ?_, ?_⟩
  · intro transform cfg kwargs k v hnd hlk hfalsy hexc
    have hallk : ∀ kv ∈ kwargs, kv.1 = k → pyTruthy kv.2 = false := by
      intro kv hkv hk
      have hmem : (k, kv.2) ∈ kwargs := by
        rw [← hk]
        exact hkv
      have := nodup_mem_lookup k kv.2 kwargs hnd hmem
      rw [hlk] at this
      injection this with this
      rw [← this]
      exact hfalsy
    cases hsu : List.lookup "server_url" kwargs with
    | none =>
      rw [mergeConfig_eq_loop transform cfg kwargs (fun u hu => by rw [hsu] at hu; cases hu)]
      exact lookup_mergeLoop transform k kwargs cfg hallk
    | some u =>
      by_cases htu : pyTruthy u = true
      · have hkne : k ≠ "server" := by
          rcases hexc with h | h
          · exact h
          · rw [h u hsu] at htu
            cases htu
        rw [mergeConfig_eq_server transform cfg kwargs u hsu htu]
        rw [lookup_mergeLoop transform k _ _
          (fun kv hkv hk => hallk kv (List.mem_of_mem_filter hkv) hk)]
        exact lookup_setField_ne cfg "server" k (mkServerConfigUrl u) hkne
      · have htu' : pyTruthy u = false := by rwa [Bool.not_eq_true] at htu
        rw [mergeConfig_eq_loop transform cfg kwargs
          (fun w hw => by rw [hsu] at hw; injection hw with hw; rw [← hw]; exact htu')]
        exact lookup_mergeLoop transform k kwargs cfg hallk
  · intro transform cfg kwargs k hlk hexc
    have hnok : ∀ kv ∈ kwargs, kv.1 = k → pyTruthy kv.2 = false := by
      intro kv hkv hk
      exact absurd hk (lookup_eq_none_keys k kwargs hlk kv hkv)
    cases hsu : List.lookup "server_url" kwargs with
    | none =>
      rw [mergeConfig_eq_loop transform cfg kwargs (fun u hu => by rw [hsu] at hu; cases hu)]
      exact lookup_mergeLoop transform k kwargs cfg hnok
    | some u =>
      by_cases htu : pyTruthy u = true
      · have hkne : k ≠ "server" := by
          rcases hexc with h | h
          · exact h
          · rw [h u hsu] at htu
            cases htu
        rw [mergeConfig_eq_server transform cfg kwargs u hsu htu]
        rw [lookup_mergeLoop transform k _ _
          (fun kv hkv hk => hnok kv (List.mem_of_mem_filter hkv) hk)]
        exact lookup_setField_ne cfg "server" k (mkServerConfigUrl u) hkne
      · have htu' : pyTruthy u = false := by rwa [Bool.not_eq_true] at htu
        rw [mergeConfig_eq_loop transform cfg kwargs
          (fun w hw => by rw [hsu] at hw; injection hw with hw; rw [← hw]; exact htu')]
        exact lookup_mergeLoop transform k kwargs cfg hnok
  · intro transform cfg kwargs v hsu htu hserver
    rw [mergeConfig_eq_server transform cfg kwargs v hsu htu]
    rw [lookup_mergeLoop transform "server" _ _
      (fun kv hkv hk =>
        absurd hk
          (lookup_eq_none_keys "server" kwargs hserver kv (List.mem_of_mem_filter hkv)))]
    exact lookup_setField_self cfg "server" (mkServerConfigUrl v)

/-- C6 witness: the falsy-skip clause at a concrete input — merging
`{output_dir: "", server_url: None}` over a config leaves `output_dir` (and
everything else) unchanged, for the identity transform. -/
theorem config_merge_falsy_skip_witness :
    List.lookup "output_dir"
        (mergeConfig (fun _ v => v) [("output_dir", .str "/out"), ("server", .none)]
          [("output_dir", .str ""), ("server_url", .none)]) =
      some (.str "/out") := by
  have h := config_merge_falsy_skip.1 (fun _ v => v)
    [("output_dir", .str "/out"), ("server", .none)]
    [("output_dir", .str ""), ("server_url", .none)]
    "output_dir" (.str "")
    (by simp) (by simp [List.lookup]) (by simp [pyTruthy])
    (Or.inl (by simp))
  rw [h]
  simp [List.lookup]

theorem sha512Compress_length (hs block : List Nat) :
    (sha512Compress hs block).length = 8 := by
  simp [sha512Compress]

theorem sha512Words_length (msg : List Nat) : (sha512Words msg).length = 8 := by
  unfold sha512Words
  have h : ∀ (bs : List (List Nat)) (hs : List Nat), hs.length = 8 →
      (bs.foldl sha512Compress hs).length = 8 := by
    intro bs
    induction bs with
    | nil => intro hs h; simpa using h
    | cons b rest ih =>
      intro hs h
      simp only [List.foldl_cons]
      exact ih _ (sha512Compress_length hs b)
  exact h _ sha512H0 rfl

theorem flatMap_word64Hex_length (ws : List Nat) :
    (ws.flatMap word64Hex).length = 16 * ws.length := by
  induction ws with
  | nil => rfl
  | cons w rest ih =>
    have hw : (word64Hex w).length = 16 := by simp [word64Hex]
    simp only [List.flatMap_cons, List.length_append, ih, hw, List.length_cons]
    ring

theorem sha512Hexdigest_length (msg : List Nat) :
    (sha512Hexdigest msg).data.length = 128 := by
  show ((sha512Words msg).flatMap word64Hex).length = 128
  rw [flatMap_word64Hex_length, sha512Words_length]

/-- C5: name derivation is deterministic (a pure function):
`_get_name("get", "/users/{id}")` is `get_users_id` for every namespace whose
budget admits it; a name exceeding the budget is truncated to exactly the
budgeted length — the truncated prefix, an underscore, and the first 4 hex
characters of the SHA-512 digest of the full untruncated name; and `generate`
returns the collected names sorted lexicographically (Python string order),
independently of the order the spec's paths are iterated in. -/
theorem get_name_deterministic_truncation :
    (∀ ns : String, ns.data.length ≤ 51 →
      getName ns "get" "/users/{id}" = "get_users_id") ∧
    (∀ ns method path : String,
      maxNameLength ns < ((rawLambdaName method path).data.length : Int) →
      5 ≤ maxNameLength ns →
      ((getName ns method path).data.length : Int) = maxNameLength ns ∧
      getName ns method path =
        (⟨(rawLambdaName method path).data.take (namePrefixLength ns).toNat⟩ : String) ++
          "_" ++
          (⟨(sha512Hexdigest (strBytes (rawLambdaName method path))).data.take 4⟩ : String) ∧
      ((sha512Hexdigest (strBytes (rawLambdaName method path))).data.take 4).length = 4) ∧
    (∀ ns server f api l, generate ns server f api = .ok l → l.Sorted pyStrLeRel) ∧
    (∀ ns server f api (paths2 : List (String × List (String × EndpointDetails))),
      api.paths.Perm paths2 →
      generate ns server f api = generate ns server f ⟨api.serverSpec, paths2⟩) := by
  refine ⟨?_, ?_, ?_, ?_⟩
  · intro ns h
    have hraw : rawLambdaName "get" "/users/{id}" = "get_users_id" := by decide
    have hc : ¬ (maxNameLength ns < (("get_users_id" : String).data.length : Int)) := by
      have h12 : ("get_users_id" : String).data.length = 12 := by decide
      rw [h12]
      have happ : ((ns ++ "_") : String).data.length = ns.data.length + 1 := by
        show (ns.data ++ ("_" : String).data).length = ns.data.length + 1
        simp
      unfold maxNameLength
      rw [happ]
      omega
    simp only [getName, hraw]
    rw [if_neg hc]
  · intro ns method path hlong hmin
    have hpfx : (0 : Int) ≤ namePrefixLength ns := by
      unfold namePrefixLength
      omega
    have hslice : pySliceTo (rawLambdaName method path) (namePrefixLength ns) =
        (⟨(rawLambdaName method path).data.take (namePrefixLength ns).toNat⟩ : String) := by
      unfold pySliceTo
      rw [if_pos hpfx]
    have hgn : getName ns method path =
        (⟨(rawLambdaName method path).data.take (namePrefixLength ns).toNat⟩ : String) ++
          "_" ++
          (⟨(sha512Hexdigest (strBytes (rawLambdaName method path))).data.take 4⟩ : String) := by
      simp only [getName]
      rw [if_pos hlong, hslice]
    have htake4 : ((sha512Hexdigest (strBytes (rawLambdaName method path))).data.take 4).length
        = 4 := by
      rw [List.length_take, sha512Hexdigest_length]
      decide
    refine ⟨?_, hgn, htake4⟩
    rw [hgn]
    show ((((rawLambdaName method path).data.take (namePrefixLength ns).toNat ++
      ("_" : String).data) ++
      (sha512Hexdigest (strBytes (rawLambdaName method path))).data.take 4).length : Int) =
      maxNameLength ns
    rw [List.length_append, List.length_append, List.length_take, List.length_take,
      sha512Hexdigest_length]
    have h1 : (("_" : String).data).length = 1 := by decide
    rw [h1]
    unfold namePrefixLength at *
    omega
  · intro ns server f api l h
    unfold generate at h
    cases hres : resolveServerUrl server api.serverSpec with
    | error e => rw [hres] at h; cases h
    | ok u =>
      rw [hres] at h
      injection h with h
      rw [← h]
      exact List.sorted_insertionSort pyStrLeRel _
  · intro ns server f api paths2 hperm
    unfold generate
    cases hres : resolveServerUrl server api.serverSpec with
    | error e => rfl
    | ok u =>
      have hp : (collectLambdas ns f api.paths).Perm (collectLambdas ns f paths2) :=
        List.Perm.flatMap_right _ hperm
      have heq : List.insertionSort pyStrLeRel (collectLambdas ns f api.paths) =
          List.insertionSort pyStrLeRel (collectLambdas ns f paths2) :=
        List.eq_of_perm_of_sorted
          (((List.perm_insertionSort pyStrLeRel _).trans hp).trans
            (List.perm_insertionSort pyStrLeRel _).symm)
          (List.sorted_insertionSort pyStrLeRel _)
          (List.sorted_insertionSort pyStrLeRel _)
      rw [heq]

set_option maxRecDepth 10000 in
/-- C5 witness: the round-trip example `get_users_id`, and a path long enough
to exceed namespace `pf`'s budget of 61, producing a 61-character name ending
in `_` plus the first four hex digits (`46af`) of the SHA-512 digest of the
untruncated name. -/
theorem get_name_deterministic_truncation_witness :
    getName "pf" "get" "/users/{id}" = "get_users_id" ∧
    getName "pf" "get"
        "/users/{id}/orders/{order_id}/items/{item_id}/history/details/audit" =
      "get_users_id_orders_order_id_items_item_id_history_detai_46af" ∧
    ("get_users_id_orders_order_id_items_item_id_history_detai_46af" : String).data.length
      = 61 := by
  refine ⟨get_name_deterministic_truncation.1 "pf" (by decide), by decide, by decide⟩

theorem collectLambdas_filter_allowed (ns : String) (f : FilterState) :
    ∀ paths : List (String × List (String × EndpointDetails)),
      collectLambdas ns f paths =
        collectLambdas ns f
          (paths.map (fun pe =>
            (pe.1, pe.2.filter (fun me => allowedMethods.contains me.1)))) := by
  have hentry : ∀ (p : String) (ms : List (String × EndpointDetails)),
      ms.filterMap (fun me =>
        if allowedMethods.contains me.1 && isIncluded f p me.1 me.2 then
          some (getName ns me.1 p)
        else none) =
      (ms.filter (fun me => allowedMethods.contains me.1)).filterMap (fun me =>
        if allowedMethods.contains me.1 && isIncluded f p me.1 me.2 then
          some (getName ns me.1 p)
        else none) := by
    intro p ms
    induction ms with
    | nil => rfl
    | cons me rest ih =>
      by_cases hc : allowedMethods.contains me.1
      · rw [List.filter_cons_of_pos (by simpa using hc), List.filterMap_cons,
          List.filterMap_cons, ih]
      · have hc' : allowedMethods.contains me.1 = false := by
          rwa [Bool.not_eq_true] at hc
        rw [List.filter_cons_of_neg (by simpa using hc'), List.filterMap_cons, hc']
        simp only [Bool.false_and, Bool.false_eq_true, if_false]
        exact ih
  intro paths
  induction paths with
  | nil => rfl
  | cons pe rest ih =>
    simp only [collectLambdas, List.map_cons, List.flatMap_cons] at *
    rw [ih, hentry pe.1 pe.2]

/-- C10: `generate` considers only `get`, `put`, `post`, `delete`, `patch`
and `head` under each path: restricting every path's method dict to those six
keys leaves the output unchanged, for every endpoint-filter configuration;
concretely, a path carrying `options` and `parameters` keys besides `get`
yields only the `get` name. -/
theorem generate_allowed_methods_only :
    (∀ ns server f api,
      generate ns server f api =
        generate ns server f
          ⟨api.serverSpec,
            api.paths.map (fun pe =>
              (pe.1, pe.2.filter (fun me => allowedMethods.contains me.1)))⟩) ∧
    (generate "pf" none emptyFilterState
        ⟨⟨"https://api.example.com", []⟩,
          [("/users",
            [("get", {}), ("options", {}), ("parameters", {}), ("trace", {})])]⟩ =
      .ok ["get_users"]) := by
  constructor
  · intro ns server f api
    unfold generate
    cases hres : resolveServerUrl server api.serverSpec with
    | error e => rfl
    | ok u => rw [collectLambdas_filter_allowed ns f api.paths]
  · decide

end PicoFun
